import Mathlib

/-!
# Verification of the `stepper` thinking-visualizer core

A shallow embedding of the repository's Python core
(`app/utils/text_analysis.py`, `app/services/thinking_parser.py`,
`app/services/session_manager.py`, `app/services/websocket_manager.py`)
together with proofs settling the specification claims.

Conventions of the embedding:

* Python strings are Lean `String`s (ASCII inputs assumed; `str.lower`,
  `str.strip`, `str.split`, `in`, `str.count` and the regexes used by the
  code are mirrored on `List Char`).
* Python floats are modelled as rationals (`ℚ`); the constants 0.7, 0.05,
  0.08 appear as 7/10, 1/20, 2/25.
* `datetime` values are modelled as integers (seconds); `utcnow()` becomes
  an explicit `now` parameter.
* Mutation becomes explicit state passing; `raise` becomes `Except`.
* Wall-clock `timestamp` provenance fields are not modelled.
-/

namespace Stepper

/-! ## Python string primitives -/

/-- Python whitespace (`\s`, `str.strip`, `str.split`) for ASCII text. -/
def pyIsSpace (c : Char) : Bool :=
  c = ' ' || c = '\t' || c = '\n' || c = '\r' || c = Char.ofNat 11 || c = Char.ofNat 12

/-- `str.strip()` on a character list. -/
def stripChars (l : List Char) : List Char :=
  ((l.dropWhile pyIsSpace).reverse.dropWhile pyIsSpace).reverse

/-- `str.strip()`. -/
def pyStrip (s : String) : String := ⟨stripChars s.data⟩

/-- A regex word character (`\w` for ASCII): letters, digits, underscore. -/
def isWordChar (c : Char) : Bool := c.isAlphanum || c = '_'

/-- A lowercase ASCII letter (`[a-z]`). -/
def isLowerAlpha (c : Char) : Bool := 'a' ≤ c && c ≤ 'z'

/-- Maximal runs of characters satisfying `p`, fueled so the kernel can
evaluate it (each step consumes at least one character and one unit). -/
def runsOfF (p : Char → Bool) : Nat → List Char → List (List Char)
  | 0, _ => []
  | _ + 1, [] => []
  | fuel + 1, c :: cs =>
    if p c then (c :: cs.takeWhile p) :: runsOfF p fuel (cs.dropWhile p)
    else runsOfF p fuel cs

/-- Maximal runs of characters satisfying `p` (used for `str.split()` and
for tokenization): the runs, in order, with separators removed. -/
def runsOf (p : Char → Bool) (l : List Char) : List (List Char) :=
  runsOfF p l.length l

/-- `str.split()` with no arguments: maximal runs of non-whitespace. -/
def pySplitWS (s : String) : List String :=
  (runsOf (fun c => !pyIsSpace c) s.data).map (fun l => ⟨l⟩)

/-- `len(s.split())`, the word count used by the segmenter. -/
def wordCount (s : String) : Nat := (pySplitWS s).length

/-- `str.lower()` for ASCII text, applied characterwise. -/
def strToLower (s : String) : String := ⟨s.data.map Char.toLower⟩

/-- Python `needle in hay` (substring containment). -/
def strContains (hay needle : String) : Bool :=
  hay.data.tails.any (fun t => needle.data.isPrefixOf t)

/-- `str.count(c)` for a single character. -/
def pyCountChar (s : String) (c : Char) : Nat := s.data.count c

/-! ## Decimal rendering of naturals (Python f-string `{n}`) -/

/-- The decimal digit character for `n < 10`. -/
def digitChar (n : Nat) : Char := Char.ofNat (48 + n)

/-- Decimal digits of a natural number, most significant first, fueled so
the kernel can evaluate it; any `fuel > n` is enough. -/
def natDecimalAuxF : Nat → Nat → List Char
  | 0, _ => []
  | fuel + 1, n =>
    if n < 10 then [digitChar n]
    else natDecimalAuxF fuel (n / 10) ++ [digitChar (n % 10)]

/-- Decimal digits of a natural number, most significant first. -/
def natDecimalAux (n : Nat) : List Char := natDecimalAuxF (n + 1) n

/-- Decimal rendering of a natural number, as produced by a Python f-string. -/
def natDecimal (n : Nat) : String := ⟨natDecimalAux n⟩

/-- Reading a digit list back as a number (proof device for injectivity). -/
def decValue (l : List Char) : Nat := l.foldl (fun a c => a * 10 + (c.toNat - 48)) 0

lemma decValue_foldl_natDecimalAuxF :
    ∀ (fuel n : Nat), n < fuel →
    ∀ a : Nat, (natDecimalAuxF fuel n).foldl (fun a c => a * 10 + (c.toNat - 48)) a
      = a * 10 ^ (natDecimalAuxF fuel n).length + n := by
  intro fuel
  induction fuel with
  | zero =>
    intro n h
    omega
  | succ fuel ih =>
    intro n hn a
    rw [natDecimalAuxF]
    by_cases h : n < 10
    · rw [if_pos h]
      simp only [List.foldl_cons, List.foldl_nil, List.length_cons,
        List.length_nil, pow_one, digitChar]
      have hv : (Char.ofNat (48 + n)).toNat = 48 + n := by
        interval_cases n <;> decide
      omega
    · rw [if_neg h]
      simp only [List.foldl_append, List.foldl_cons, List.foldl_nil,
        List.length_append, List.length_cons, List.length_nil]
      have hlt : n / 10 < fuel := by
        have : n / 10 < n := Nat.div_lt_self (by omega) (by omega)
        omega
      rw [ih (n / 10) hlt a]
      have hv : (digitChar (n % 10)).toNat = 48 + n % 10 := by
        have h10 : n % 10 < 10 := Nat.mod_lt _ (by omega)
        unfold digitChar
        interval_cases hm : (n % 10) <;> decide
      rw [hv, pow_succ]
      have : 10 * (n / 10) + n % 10 = n := Nat.div_add_mod n 10
      ring_nf
      omega

lemma decValue_natDecimalAux (n : Nat) : decValue (natDecimalAux n) = n := by
  have := decValue_foldl_natDecimalAuxF (n + 1) n (by omega) 0
  simpa [decValue, natDecimalAux] using this

/-- Decimal rendering is injective. -/
lemma natDecimal_injective : Function.Injective natDecimal := by
  intro m n h
  have hd : natDecimalAux m = natDecimalAux n := congrArg String.data h
  have := decValue_natDecimalAux m
  rw [hd, decValue_natDecimalAux] at this
  omega

/-! ## `app/utils/text_analysis.py` -/

/-- The stop-word set of `extract_keywords`. -/
def stopWords : List String :=
  ["the", "is", "at", "which", "on", "a", "an", "and", "or", "but",
   "in", "with", "to", "for", "of", "as", "by", "that", "this",
   "from", "are", "was", "were", "been", "be", "have", "has", "had",
   "do", "does", "did", "will", "would", "could", "should", "may",
   "might", "can", "it", "its", "they", "them", "their", "we", "our",
   "you", "your", "i", "my", "me", "he", "she", "him", "her"]

/-- `re.findall(r'\b[a-z]{3,}\b', text.lower())`: the maximal word-character
runs of the lowered text that consist solely of `[a-z]` and have length ≥ 3
(a run touching a digit or underscore admits no match because `\b` requires
a word/non-word transition). -/
def findallLowerWords (text : String) : List String :=
  (runsOf isWordChar (strToLower text).data).filterMap
    (fun r => if r.all isLowerAlpha && 3 ≤ r.length then some ⟨r⟩ else none)

/-- Fueled first-occurrence deduplication (each step consumes one element
and one unit, and filtering never lengthens the tail). -/
def counterKeysF : Nat → List String → List String
  | 0, _ => []
  | _ + 1, [] => []
  | fuel + 1, x :: xs => x :: counterKeysF fuel (xs.filter (fun y => y ≠ x))

/-- The distinct elements of a list in first-occurrence order: the key set of
a Python `Counter` built by insertion. -/
def counterKeys (l : List String) : List String := counterKeysF l.length l

/-- Select the earliest element of maximal measure, returning it and the
remaining list. `sorted(..., reverse=True)` with a stable sort — hence
`Counter.most_common` — is iterated earliest-maximum selection. -/
def pickMax (c : String → Nat) : List String → Option (String × List String)
  | [] => none
  | x :: xs =>
    match pickMax c xs with
    | none => some (x, [])
    | some (y, ys) => if c x < c y then some (y, x :: ys) else some (x, xs)

lemma pickMax_eq_none {c : String → Nat} {l : List String} :
    pickMax c l = none ↔ l = [] := by
  cases l with
  | nil => simp [pickMax]
  | cons x xs =>
    simp only [pickMax]
    cases h : pickMax c xs with
    | none => simp
    | some p =>
      obtain ⟨y, ys⟩ := p
      by_cases hc : c x < c y <;> simp [hc]

lemma pickMax_spec {c : String → Nat} {l : List String} {m : String}
    {r : List String} (h : pickMax c l = some (m, r)) :
    l.Perm (m :: r) ∧ ∀ x ∈ r, c x ≤ c m := by
  induction l generalizing m r with
  | nil => simp [pickMax] at h
  | cons x xs ih =>
    simp only [pickMax] at h
    cases hx : pickMax c xs with
    | none =>
      rw [hx] at h
      have hxs : xs = [] := pickMax_eq_none.mp hx
      cases h
      subst hxs
      simp
    | some p =>
      obtain ⟨y, ys⟩ := p
      rw [hx] at h
      dsimp only at h
      obtain ⟨hperm, hmax⟩ := ih hx
      by_cases hc : c x < c y
      · rw [if_pos hc] at h
        cases h
        constructor
        · exact (hperm.cons x).trans (List.Perm.swap _ _ _)
        · intro z hz
          rcases List.mem_cons.mp hz with hz | hz
          · exact hz ▸ Nat.le_of_lt hc
          · exact hmax z hz
      · rw [if_neg hc] at h
        cases h
        refine ⟨List.Perm.refl _, ?_⟩
        intro z hz
        rcases List.mem_cons.mp (hperm.mem_iff.mp hz) with h' | h'
        · subst h'; omega
        · have := hmax z h'
          omega

lemma pickMax_length {c : String → Nat} {l : List String} {m : String}
    {r : List String} (h : pickMax c l = some (m, r)) :
    r.length < l.length := by
  have := (pickMax_spec h).1.length_eq
  simp at this
  omega

/-- `Counter.most_common(n)`: the `n` largest-count keys, earliest-first on
ties, by repeated earliest-maximum selection. -/
def selectTop (c : String → Nat) : Nat → List String → List String
  | 0, _ => []
  | n + 1, l =>
    match pickMax c l with
    | none => []
    | some (m, r) => m :: selectTop c n r

lemma selectTop_length_le (c : String → Nat) :
    ∀ (n : Nat) (l : List String), (selectTop c n l).length ≤ n
  | 0, _ => by simp [selectTop]
  | n + 1, l => by
    rw [selectTop]
    cases h : pickMax c l with
    | none => simp
    | some p =>
      obtain ⟨m, r⟩ := p
      simpa using selectTop_length_le c n r
termination_by n l => l.length
decreasing_by
  exact pickMax_length h

lemma selectTop_subset (c : String → Nat) :
    ∀ (n : Nat) (l : List String), ∀ x ∈ selectTop c n l, x ∈ l
  | 0, _ => by simp [selectTop]
  | n + 1, l => by
    rw [selectTop]
    cases h : pickMax c l with
    | none => simp
    | some p =>
      obtain ⟨m, r⟩ := p
      intro x hx
      have hperm := (pickMax_spec h).1
      rcases List.mem_cons.mp hx with hx | hx
      · exact hperm.mem_iff.mpr (hx ▸ List.mem_cons_self m r)
      · exact hperm.mem_iff.mpr (List.mem_cons_of_mem m (selectTop_subset c n r x hx))
termination_by n l => l.length
decreasing_by
  exact pickMax_length h

lemma selectTop_nodup (c : String → Nat) :
    ∀ (n : Nat) (l : List String), l.Nodup → (selectTop c n l).Nodup
  | 0, _ => by simp [selectTop]
  | n + 1, l => by
    rw [selectTop]
    cases h : pickMax c l with
    | none => simp
    | some p =>
      obtain ⟨m, r⟩ := p
      intro hnd
      have hperm := (pickMax_spec h).1
      have hnd' : (m :: r).Nodup := hperm.nodup hnd
      refine List.nodup_cons.mpr ⟨?_, selectTop_nodup c n r (List.nodup_cons.mp hnd').2⟩
      intro hmem
      exact (List.nodup_cons.mp hnd').1 (selectTop_subset c n r m hmem)
termination_by n l => l.length
decreasing_by
  exact pickMax_length h

lemma selectTop_le_of_mem (c : String → Nat) :
    ∀ (n : Nat) (l : List String) (b : String), (∀ x ∈ l, c x ≤ c b) →
      ∀ x ∈ selectTop c n l, c x ≤ c b
  | 0, _ => by simp [selectTop]
  | n + 1, l => by
    rw [selectTop]
    cases h : pickMax c l with
    | none => simp
    | some p =>
      obtain ⟨m, r⟩ := p
      intro b hb x hx
      have hperm := (pickMax_spec h).1
      rcases List.mem_cons.mp hx with hx | hx
      · exact hb x (hperm.mem_iff.mpr (hx ▸ List.mem_cons_self m r))
      · exact selectTop_le_of_mem c n r b
          (fun z hz => hb z (hperm.mem_iff.mpr (List.mem_cons_of_mem m hz))) x hx
termination_by n l => l.length
decreasing_by
  exact pickMax_length h

/-- Successive selected keys have non-increasing counts. -/
lemma selectTop_chain (c : String → Nat) :
    ∀ (n : Nat) (l : List String),
      (selectTop c n l).Chain' (fun a b => c b ≤ c a)
  | 0, _ => by simp [selectTop]
  | n + 1, l => by
    rw [selectTop]
    cases h : pickMax c l with
    | none => simp
    | some p =>
      obtain ⟨m, r⟩ := p
      refine List.Chain'.cons' (selectTop_chain c n r) ?_
      intro y hy
      have hmax := (pickMax_spec h).2
      have hymem : y ∈ selectTop c n r := List.mem_of_mem_head? hy
      exact selectTop_le_of_mem c n r m hmax y hymem
termination_by n l => l.length
decreasing_by
  exact pickMax_length h

/-- `extract_keywords(text, top_n)` from `text_analysis.py`: lowercase
alphabetic tokens of length ≥ 3, stop words removed, top `top_n` by
frequency (insertion order on ties, as `Counter.most_common` does). -/
def extract_keywords (text : String) (top_n : Nat := 5) : List String :=
  let words := findallLowerWords text
  let filtered := words.filter (fun w => !stopWords.contains w)
  selectTop (fun w => filtered.count w) top_n (counterKeys filtered)

/-- The frequency, in the stop-word-filtered token list, by which
`extract_keywords` ranks a keyword. -/
def keywordFreq (text : String) (w : String) : Nat :=
  ((findallLowerWords text).filter (fun w => !stopWords.contains w)).count w

/-! ### Confidence scoring -/

/-- First alternative of the group that matches at the head of `l` with a
trailing word boundary; returns the matched word and the remainder.
Mirrors the backtracking of `\b(w1|w2|...)\b`: alternatives are tried in
pattern order, and one succeeds only if followed by a non-word character
or the end of the text. -/
def firstAltMatch (alts : List (List Char)) (l : List Char) :
    Option (List Char × List Char) :=
  alts.findSome? (fun alt =>
    if alt ≠ [] && alt.isPrefixOf l then
      match l.drop alt.length with
      | [] => some (alt, [])
      | d :: ds => if isWordChar d then none else some (alt, d :: ds)
    else none)

/-- Count the non-overlapping matches of `\b(alt1|alt2|...)\b` in a text,
scanning left to right (`len(re.findall(pattern, text))`). `prevW` records
whether the previous character was a word character; `fuel` bounds the scan
(one unit per step, each step consuming at least one character). -/
def countAltAux (alts : List (List Char)) : Nat → Bool → List Char → Nat
  | 0, _, _ => 0
  | _ + 1, _, [] => 0
  | fuel + 1, prevW, c :: cs =>
    if !prevW && isWordChar c then
      match firstAltMatch alts (c :: cs) with
      | some (alt, rest) =>
        1 + countAltAux alts fuel (alt.getLast?.elim prevW isWordChar) rest
      | none => countAltAux alts fuel (isWordChar c) cs
    else countAltAux alts fuel (isWordChar c) cs

/-- `len(re.findall(r'\b(w1|w2|...)\b', text))` for a word-alternation
pattern over an already-lowered text. -/
def countPattern (alts : List String) (text : List Char) : Nat :=
  countAltAux (alts.map String.data) (text.length + 1) false text

/-- The certainty pattern families of `calculate_confidence`. -/
def certaintyPatterns : List (List String) :=
  [["clearly", "obviously", "definitely", "certainly", "surely", "must", "will"],
   ["always", "never", "absolutely", "undoubtedly", "unquestionably"],
   ["correct", "right", "true", "exact", "precise"]]

/-- The hedging pattern families of `calculate_confidence`. -/
def hedgingPatterns : List (List String) :=
  [["maybe", "perhaps", "possibly", "probably", "might", "could", "may"],
   ["uncertain", "unsure", "unclear", "ambiguous", "vague"],
   ["seems", "appears", "suggests", "indicates"],
   ["somewhat", "slightly", "fairly", "rather", "quite"],
   ["i think", "i believe", "i guess", "i assume"]]

/-- `calculate_confidence(text)`: base 0.7, +0.05 per certainty match,
−0.08 per hedging match, −0.05 per `?`, clamped to `[0, 1]`. -/
def calculate_confidence (text : String) : ℚ :=
  let tl := (strToLower text).data
  let certainty : Nat := (certaintyPatterns.map (fun p => countPattern p tl)).sum
  let hedging : Nat := (hedgingPatterns.map (fun p => countPattern p tl)).sum
  let questionMarks : Nat := pyCountChar text '?'
  let confidence : ℚ :=
    7/10 + (certainty : ℚ) * (1/20) - (hedging : ℚ) * (2/25) - (questionMarks : ℚ) * (1/20)
  max 0 (min 1 confidence)

/-! ### Linguistic cues and shared keywords -/

/-- The cue record returned by `detect_linguistic_cues`. -/
structure Cues where
  has_therefore : Bool
  has_since : Bool
  has_this : Bool
  has_that : Bool
  has_because : Bool
  has_so : Bool
  has_thus : Bool
  has_hence : Bool
deriving DecidableEq

/-- Whole-word presence, `bool(re.search(r'\bword\b', text_lower))`. -/
def hasWholeWord (w : String) (tl : List Char) : Bool :=
  0 < countPattern [w] tl

/-- `detect_linguistic_cues(text)`. -/
def detect_linguistic_cues (text : String) : Cues :=
  let tl := (strToLower text).data
  { has_therefore := hasWholeWord "therefore" tl
    has_since := hasWholeWord "since" tl
    has_this := hasWholeWord "this" tl
    has_that := hasWholeWord "that" tl
    has_because := hasWholeWord "because" tl
    has_so := hasWholeWord "so" tl
    has_thus := hasWholeWord "thus" tl
    has_hence := hasWholeWord "hence" tl }

/-- `count_shared_keywords`: `len(set(k1) & set(k2))`. -/
def count_shared_keywords (k1 k2 : List String) : Nat :=
  ((counterKeys k1).filter (fun w => k2.contains w)).length

/-! ## `app/services/thinking_parser.py`: classification -/

/-- The five thought types of `models/thought_node.py`. -/
inductive ThoughtType where
  | analysis
  | decision
  | verification
  | alternative
  | implementation
deriving DecidableEq

/-- Analysis keywords of `classify_thought_type`. -/
def analysisKeywords : List String :=
  ["need to", "first", "let\x27s", "consider", "analyze",
   "understand", "examine", "look at", "review", "assess"]

/-- Decision keywords of `classify_thought_type`. -/
def decisionKeywords : List String :=
  ["will use", "best approach", "should", "choose",
   "decide", "select", "opt for", "go with", "prefer"]

/-- Verification keywords of `classify_thought_type`. -/
def verificationKeywords : List String :=
  ["check", "verify", "confirm", "ensure", "test",
   "validate", "prove", "demonstrate", "show that"]

/-- Alternative keywords of `classify_thought_type`. -/
def alternativeKeywords : List String :=
  ["alternatively", "another option", "could also", "or",
   "instead", "different approach", "other way", "else"]

/-- Implementation keywords of `classify_thought_type`. -/
def implementationKeywords : List String :=
  ["implement", "code", "function", "class", "def",
   "create", "build", "write", "develop", "construct"]

/-- The fixed keyword set of a thought type. -/
def keywordSetOf : ThoughtType → List String
  | .analysis => analysisKeywords
  | .decision => decisionKeywords
  | .verification => verificationKeywords
  | .alternative => alternativeKeywords
  | .implementation => implementationKeywords

/-- `sum(1 for kw in keywords if kw in text_lower)`: how many of the
keywords occur (as substrings) in the lowered text. -/
def presenceScore (tl : String) (kws : List String) : Nat :=
  (kws.filter (fun kw => strContains tl kw)).length

/-- `classify_thought_type(text)`: the scores dictionary is built in the
order implementation, verification, decision, alternative, analysis, and
`max(scores.items(), key=...)` keeps the earliest entry on ties. -/
def classify_thought_type (text : String) : ThoughtType :=
  let tl := strToLower text
  let items : List (ThoughtType × Nat) :=
    [(.implementation, presenceScore tl implementationKeywords),
     (.verification, presenceScore tl verificationKeywords),
     (.decision, presenceScore tl decisionKeywords),
     (.alternative, presenceScore tl alternativeKeywords),
     (.analysis, presenceScore tl analysisKeywords)]
  let best :=
    match items with
    | [] => (ThoughtType.analysis, 0)
    | x :: xs => xs.foldl (fun (b y : ThoughtType × Nat) => if b.2 < y.2 then y else b) x
  if 0 < best.2 then best.1 else .analysis

/-! ## `app/services/thinking_parser.py`: segmentation and node building -/

/-- Sentence-terminal punctuation of the segmenter regex `[.!?]+\s+`. -/
def isSentPunct (c : Char) : Bool := c = '.' || c = '!' || c = '?'

/-- `re.split(r'[.!?]+\s+', text)`: a separator is a maximal run of
sentence punctuation immediately followed by at least one whitespace
character, consuming the whitespace run as well; punctuation not followed
by whitespace stays inside the sentence. `acc` is the current sentence,
reversed. -/
def splitSentencesAux : Nat → List Char → List Char → List (List Char)
  | 0, _, acc => [acc.reverse]
  | _ + 1, [], acc => [acc.reverse]
  | fuel + 1, c :: cs, acc =>
    if isSentPunct c then
      match cs.dropWhile isSentPunct with
      | [] => [acc.reverse ++ (c :: cs.takeWhile isSentPunct)]
      | d :: ds =>
        if pyIsSpace d then
          acc.reverse :: splitSentencesAux fuel (ds.dropWhile pyIsSpace) []
        else
          splitSentencesAux fuel (d :: ds) ((c :: cs.takeWhile isSentPunct).reverse ++ acc)
    else splitSentencesAux fuel cs (c :: acc)

/-- The sentence list of `re.split(r'[.!?]+\s+', text)`. -/
def splitSentences (text : String) : List String :=
  (splitSentencesAux text.data.length text.data []).map (fun l => (⟨l⟩ : String))

/-- `ThinkingParser.split_into_segments(text, min_words)`: greedily pack
consecutive (stripped, non-empty) sentences, joined by `". "`, into
segments of at least `min_words` words; a final partial segment is kept
only if it has at least `min_words // 2` words. -/
def split_into_segments (text : String) (min_words : Nat := 20) : List String :=
  let step := fun (acc : List String × String) (sentence : String) =>
    let s := pyStrip sentence
    if s = "" then acc
    else
      let cur := if acc.2 ≠ "" then acc.2 ++ ". " ++ s else s
      if min_words ≤ wordCount cur then (acc.1 ++ [cur], "") else (acc.1, cur)
  let r := (splitSentences text).foldl step ([], "")
  if r.2 ≠ "" && min_words / 2 ≤ wordCount r.2 then r.1 ++ [r.2] else r.1

/-- 2D layout position (`models/thought_node.py`, values always integral). -/
structure Position where
  x : Nat
  y : Nat
deriving DecidableEq

/-- `ThoughtNode` (`models/thought_node.py`); the wall-clock `timestamp`
field is not modelled. -/
structure ThoughtNode where
  id : String
  type : ThoughtType
  content : String
  confidence : ℚ
  keywords : List String
  dependencies : List String
  position : Position
  session_id : String
deriving DecidableEq

/-- The mutable state of a `ThinkingParser` instance. -/
structure ParserState where
  session_id : String
  node_counter : Nat
  recent_nodes : List ThoughtNode
  x_position : Nat
  y_position : Nat
  accumulated_text : String
deriving DecidableEq

/-- `ThinkingParser.__init__(session_id)`. -/
def initParser (sid : String) : ParserState := ⟨sid, 0, [], 0, 0, ""⟩

/-- `generate_node_id`: `f"{session_id}_node_{node_counter}"` after the
counter is incremented. -/
def mkNodeId (sid : String) (n : Nat) : String := sid ++ "_node_" ++ natDecimal n

/-- Referential-cue stage of `detect_dependencies`: link to the immediate
predecessor when the content carries one of the five read cues. -/
def depsBase (recent : List ThoughtNode) (content : String) : List String :=
  let cues := detect_linguistic_cues content
  if (cues.has_this || cues.has_that || cues.has_therefore ||
      cues.has_since || cues.has_because) && !recent.isEmpty then
    match recent.getLast? with
    | some lastNode => [lastNode.id]
    | none => []
  else []

/-- Shared-keyword stage of `detect_dependencies`: for each of the last
three recent nodes, in list order, append its id when it shares at least
two keywords and is not already linked. -/
def depsShared (recent : List ThoughtNode) (kws : List String)
    (acc : List String) : List String :=
  (recent.drop (recent.length - 3)).foldl (fun acc rn =>
    if 2 ≤ count_shared_keywords kws rn.keywords && !acc.contains rn.id
    then acc ++ [rn.id] else acc) acc

/-- `detect_dependencies(node)`: referential-cue link, shared-keyword
links, and a fallback link to the immediate predecessor when nothing else
was linked. -/
def detect_dependencies (recent : List ThoughtNode) (content : String)
    (kws : List String) : List String :=
  let deps1 := depsShared recent kws (depsBase recent content)
  if deps1.isEmpty && !recent.isEmpty then
    match recent.getLast? with
    | some lastNode => [lastNode.id]
    | none => []
  else deps1

/-- The node `_create_node_from_segment` builds: classified, scored,
keyword-extracted, dependency-linked, carrying the incremented counter's
id and the current layout position. -/
def buildNode (st : ParserState) (segment : String) : ThoughtNode :=
  { id := mkNodeId st.session_id (st.node_counter + 1)
    type := classify_thought_type segment
    content := pyStrip segment
    confidence := calculate_confidence segment
    keywords := extract_keywords segment
    dependencies :=
      detect_dependencies st.recent_nodes (pyStrip segment) (extract_keywords segment)
    position := ⟨st.x_position, st.y_position⟩
    session_id := st.session_id }

/-- The state change of a successful `_create_node_from_segment`: counter
incremented, layout position advanced (x resets and y steps every third
node), node appended to the rolling window with the oldest popped past
five. -/
def pushRecent (st : ParserState) (node : ThoughtNode) : ParserState :=
  let newXY : Nat × Nat :=
    if (st.node_counter + 1) % 3 == 0 then (0, st.y_position + 100)
    else (st.x_position + 200, st.y_position)
  let r := st.recent_nodes ++ [node]
  { st with
      node_counter := st.node_counter + 1
      recent_nodes := if 5 < r.length then r.tail else r
      x_position := newXY.1
      y_position := newXY.2 }

/-- `_create_node_from_segment(segment)`: `None` for empty or short
segments, otherwise build the node and push it into the parser state. -/
def createNodeFromSegment (st : ParserState) (segment : String) :
    Option ThoughtNode × ParserState :=
  if segment = "" || (pyStrip segment).length < 10 then (none, st)
  else (some (buildNode st segment), pushRecent st (buildNode st segment))

/-- `parse_incremental(text_chunk)`: accumulate, split, emit all but the
last segment, keep the last segment as the new buffer. -/
def parse_incremental (st : ParserState) (chunk : String) :
    List ThoughtNode × ParserState :=
  let acc := st.accumulated_text ++ chunk
  let segments := split_into_segments acc
  if 1 < segments.length then
    let complete := segments.dropLast
    let st1 := { st with accumulated_text := segments.getLast?.getD "" }
    complete.foldl (fun p seg =>
      match createNodeFromSegment p.2 seg with
      | (some nd, s') => (p.1 ++ [nd], s')
      | (none, s') => (p.1, s')) (([] : List ThoughtNode), st1)
  else ([], { st with accumulated_text := acc })

/-- `finalize()`: emit the residual buffer, if non-blank, as one final
segment; the buffer itself is not cleared. -/
def finalizeParser (st : ParserState) : List ThoughtNode × ParserState :=
  if pyStrip st.accumulated_text ≠ "" then
    match createNodeFromSegment st st.accumulated_text with
    | (some nd, st') => ([nd], st')
    | (none, st') => ([], st')
  else ([], st)

/-- One driver-visible parser operation. -/
inductive ParserOp where
  | feed (chunk : String)
  | fin
deriving DecidableEq

/-- Run a sequence of parser operations, collecting every emitted node in
order. -/
def runOps (st : ParserState) : List ParserOp → List ThoughtNode × ParserState
  | [] => ([], st)
  | op :: ops =>
    let r := match op with
      | .feed c => parse_incremental st c
      | .fin => finalizeParser st
    let rest := runOps r.2 ops
    (r.1 ++ rest.1, rest.2)

/-- Contents of the nodes emitted when the fragments are fed one at a time
and the parser is then finalized. -/
def emittedContents (sid : String) (fragments : List String) : List String :=
  (runOps (initParser sid) ((fragments.map ParserOp.feed) ++ [ParserOp.fin])).1.map
    ThoughtNode.content

/-! ## `app/services/session_manager.py` -/

/-- A `Session` object; `created_at` in integer seconds. -/
structure PySession where
  session_id : String
  ip_address : String
  status : String
  created_at : Int
  thought_nodes : List ThoughtNode
  tokens_used : Nat
  problem_text : String
  solution_text : String
  error_message : Option String
deriving DecidableEq

/-- `Session.__init__`. -/
def newSession (sid ip : String) (now : Int) : PySession :=
  ⟨sid, ip, "initializing", now, [], 0, "", "", none⟩

/-- The mutable state of the `SessionManager`: the `sessions` dict, the
`ip_sessions` dict, and the two configuration values. Dicts are modelled
as insertion-ordered association lists. -/
structure SMState where
  sessions : List (String × PySession)
  ip_sessions : List (String × List String)
  max_concurrent_per_ip : Nat
  cleanup_hours : Nat
deriving DecidableEq

/-- `d[k] = v` on an insertion-ordered dict: overwrite in place or append. -/
def setAssoc {β : Type} (m : List (String × β)) (k : String) (v : β) :
    List (String × β) :=
  if m.any (fun p => p.1 = k) then m.map (fun p => if p.1 = k then (k, v) else p)
  else m ++ [(k, v)]

/-- `del d[k]` on a dict. -/
def eraseAssoc {β : Type} (m : List (String × β)) (k : String) :
    List (String × β) :=
  m.filter (fun p => p.1 ≠ k)

/-- `SessionManager.get_session`, i.e. `self.sessions.get(session_id)`. -/
def get_session (st : SMState) (sid : String) : Option PySession :=
  st.sessions.lookup sid

/-- The keyword arguments accepted by `update_session` (all of the
`Session` attributes its callers pass). -/
structure SessionUpdate where
  status : Option String := none
  tokens_used : Option Nat := none
  problem_text : Option String := none
  solution_text : Option String := none
  error_message : Option (Option String) := none

/-- `setattr` for each provided keyword argument. -/
def applySessionUpdate (s : PySession) (u : SessionUpdate) : PySession :=
  { s with
      status := u.status.getD s.status
      tokens_used := u.tokens_used.getD s.tokens_used
      problem_text := u.problem_text.getD s.problem_text
      solution_text := u.solution_text.getD s.solution_text
      error_message := u.error_message.getD s.error_message }

/-- `SessionManager.update_session`: silent no-op on an unknown id, field
assignment otherwise — with no check of the session's status. -/
def update_session (st : SMState) (sid : String) (u : SessionUpdate) : SMState :=
  match st.sessions.lookup sid with
  | none => st
  | some s =>
    { st with sessions := setAssoc st.sessions sid (applySessionUpdate s u) }

/-- `SessionManager.add_thought_node`: append if the session exists — with
no check of the session's status. -/
def add_thought_node (st : SMState) (sid : String) (nd : ThoughtNode) : SMState :=
  match st.sessions.lookup sid with
  | none => st
  | some s =>
    { st with
        sessions := setAssoc st.sessions sid
          { s with thought_nodes := s.thought_nodes ++ [nd] } }

/-- A terminal session status. -/
def isTerminalStatus (s : String) : Bool := s = "completed" || s = "error"

/-- `_get_active_sessions_for_ip`: the ids tracked for the ip whose session
still exists and is not completed/error; the tracking list is pruned to
exactly that set as a side effect. -/
def activeSessionsForIp (st : SMState) (ip : String) : List String × SMState :=
  let ids := (st.ip_sessions.lookup ip).getD []
  let active := ids.filter (fun sid =>
    match st.sessions.lookup sid with
    | some s => !isTerminalStatus s.status
    | none => false)
  let ipSessions :=
    if (st.ip_sessions.lookup ip).isSome then setAssoc st.ip_sessions ip active
    else st.ip_sessions
  (active, { st with ip_sessions := ipSessions })

/-- The exception message raised on the rate-limit path. -/
def rateLimitMessage (maxPerIp : Nat) : String :=
  "Rate limit exceeded: Maximum " ++ natDecimal maxPerIp ++
    " concurrent sessions per IP"

/-- `SessionManager.create_session`; the uuid-based fresh id and the clock
are explicit parameters. On the rate-limit path the generic `Exception`
carries `rateLimitMessage` and no session is stored. -/
def create_session (st : SMState) (ip : String) (newSid : String) (now : Int) :
    Except String PySession × SMState :=
  let pr := activeSessionsForIp st ip
  if st.max_concurrent_per_ip ≤ pr.1.length then
    (Except.error (rateLimitMessage st.max_concurrent_per_ip), pr.2)
  else
    let s := newSession newSid ip now
    (Except.ok s,
      { pr.2 with
          sessions := setAssoc pr.2.sessions newSid s
          ip_sessions := setAssoc pr.2.ip_sessions ip
            (((pr.2.ip_sessions.lookup ip).getD []) ++ [newSid]) })

/-- The failure dispatch of `routes.start_analysis`:
`429 if "Rate limit" in str(e) else 500`. -/
def routeStatusForFailure (msg : String) : Nat :=
  if strContains msg "Rate limit" then 429 else 500

/-- The removal of one session id inside `cleanup_old_sessions`: drop it
from its ip tracking list and delete it from the sessions dict. -/
def cleanupStep (acc : SMState) (sid : String) : SMState :=
  match acc.sessions.lookup sid with
  | none => acc
  | some s =>
    let ips :=
      match acc.ip_sessions.lookup s.ip_address with
      | some l =>
        if l.contains sid then setAssoc acc.ip_sessions s.ip_address (l.erase sid)
        else acc.ip_sessions
      | none => acc.ip_sessions
    { acc with ip_sessions := ips, sessions := eraseAssoc acc.sessions sid }

/-- `SessionManager.cleanup_old_sessions`: collect the ids of sessions
created before `now - cleanup_hours`, then remove each from the ip
tracking list and from the sessions dict; return how many were removed. -/
def cleanup_old_sessions (st : SMState) (now : Int) : Nat × SMState :=
  let cutoff : Int := now - st.cleanup_hours * 3600
  let toRemove :=
    (st.sessions.filter (fun p => p.2.created_at < cutoff)).map Prod.fst
  (toRemove.length, toRemove.foldl cleanupStep st)

/-! ## `app/services/websocket_manager.py` -/

/-- An opaque WebSocket connection identity. -/
abbrev ConnId := Nat

/-- The `WebSocketManager` state: the `active_connections` dict. -/
structure WSState where
  active_connections : List (String × List ConnId)
deriving DecidableEq

/-- A message actually sent over a connection: either the connection
confirmation dict of `connect` (whose payload field is named `message`) or
a `WebSocketEvent.model_dump` (whose payload field is named `data`). -/
inductive WireMsg where
  | ack (session_id : String) (message : String) (timestamp : Int)
  | event (event_type : String) (session_id : String)
      (data : List (String × String)) (timestamp : Int)
deriving DecidableEq

/-- The field names of the JSON object a `WireMsg` serializes to. -/
def wireKeys : WireMsg → List String
  | .ack _ _ _ => ["event_type", "session_id", "message", "timestamp"]
  | .event _ _ _ _ => ["event_type", "session_id", "data", "timestamp"]

/-- The `event_type` field value of a message. -/
def wireEventType : WireMsg → String
  | .ack _ _ _ => "connected"
  | .event et _ _ _ => et

/-- The subscribers currently registered for a session. -/
def subscribersOf (st : WSState) (sid : String) : List ConnId :=
  (st.active_connections.lookup sid).getD []

/-- `WebSocketManager.connect`: register the connection and send the
connection confirmation to it alone. -/
def wsConnect (st : WSState) (sid : String) (ws : ConnId) (now : Int) :
    WSState × (ConnId × WireMsg) :=
  let conns := (st.active_connections.lookup sid).getD []
  (⟨setAssoc st.active_connections sid (conns ++ [ws])⟩,
   (ws, WireMsg.ack sid "Connected to thinking stream" now))

/-- `WebSocketManager.disconnect`: remove the connection and delete the
session's entry if its list becomes empty. -/
def wsDisconnect (st : WSState) (sid : String) (ws : ConnId) : WSState :=
  match st.active_connections.lookup sid with
  | none => st
  | some l =>
    let l' := if l.contains ws then l.erase ws else l
    if l'.isEmpty then ⟨eraseAssoc st.active_connections sid⟩
    else ⟨setAssoc st.active_connections sid l'⟩

/-- `WebSocketManager.broadcast`: no-op when the session has no entry;
otherwise send the envelope to every connection (`fails` says which
`send_json` calls raise), then disconnect every failed connection.
Returns the (connection, message) deliveries that succeeded. -/
def broadcast (fails : ConnId → Bool) (st : WSState) (sid : String)
    (event_type : String) (data : List (String × String)) (now : Int) :
    List (ConnId × WireMsg) × WSState :=
  match st.active_connections.lookup sid with
  | none => ([], st)
  | some conns =>
    let msg := WireMsg.event event_type sid data now
    let delivered := (conns.filter (fun c => !fails c)).map (fun c => (c, msg))
    let disconnected := conns.filter (fun c => fails c)
    (delivered, disconnected.foldl (fun s c => wsDisconnect s sid c) st)

/-- `broadcast_new_thought`. -/
def broadcast_new_thought (fails : ConnId → Bool) (st : WSState) (sid : String)
    (node : List (String × String)) (now : Int) :
    List (ConnId × WireMsg) × WSState :=
  broadcast fails st sid "new_thought" node now

/-- `broadcast_thinking_complete`. -/
def broadcast_thinking_complete (fails : ConnId → Bool) (st : WSState)
    (sid : String) (summary : List (String × String)) (now : Int) :
    List (ConnId × WireMsg) × WSState :=
  broadcast fails st sid "thinking_complete" summary now

/-- `broadcast_solution_ready`. -/
def broadcast_solution_ready (fails : ConnId → Bool) (st : WSState)
    (sid : String) (solution : List (String × String)) (now : Int) :
    List (ConnId × WireMsg) × WSState :=
  broadcast fails st sid "solution_ready" solution now

/-- `broadcast_error`. -/
def broadcast_error (fails : ConnId → Bool) (st : WSState) (sid : String)
    (error_message error_type : String) (now : Int) :
    List (ConnId × WireMsg) × WSState :=
  broadcast fails st sid "error"
    [("error_message", error_message), ("error_type", error_type)] now

/-! ## Helper lemmas on dicts and substrings -/

section AssocLemmas

variable {β : Type}

lemma lookup_map_overwrite (m : List (String × β)) (k : String) (v : β)
    (h : m.any (fun p => p.1 = k) = true) :
    (m.map (fun p => if p.1 = k then (k, v) else p)).lookup k = some v := by
  induction m with
  | nil => simp at h
  | cons p m ih =>
    obtain ⟨a, b⟩ := p
    by_cases hk : a = k
    · simp only [List.map_cons, if_pos hk]
      simp [List.lookup]
    · simp only [List.map_cons, if_neg hk]
      have hm : m.any (fun p => p.1 = k) = true := by
        simp only [List.any_cons] at h
        simpa [hk] using h
      simpa [List.lookup, beq_eq_false_iff_ne.mpr (Ne.symm hk)] using ih hm

lemma lookup_append_absent (m : List (String × β)) (k : String) (v : β)
    (h : m.any (fun p => p.1 = k) = false) :
    (m ++ [(k, v)]).lookup k = some v := by
  induction m with
  | nil => simp [List.lookup]
  | cons p m ih =>
    obtain ⟨a, b⟩ := p
    simp only [List.any_cons, Bool.or_eq_false_iff] at h
    have hk : a ≠ k := by simpa using h.1
    simpa [List.lookup, beq_eq_false_iff_ne.mpr (Ne.symm hk)] using ih h.2

/-- After `d[k] = v`, looking up `k` yields `v`. -/
lemma lookup_setAssoc_self (m : List (String × β)) (k : String) (v : β) :
    (setAssoc m k v).lookup k = some v := by
  unfold setAssoc
  by_cases h : m.any (fun p => p.1 = k) = true
  · rw [if_pos h]
    exact lookup_map_overwrite m k v h
  · rw [if_neg h]
    exact lookup_append_absent m k v (Bool.eq_false_iff.mpr h)

/-- After `del d[k]`, looking up `k` fails. -/
lemma lookup_eraseAssoc_self (m : List (String × β)) (k : String) :
    (eraseAssoc m k).lookup k = none := by
  induction m with
  | nil => simp [eraseAssoc, List.lookup]
  | cons p m ih =>
    obtain ⟨a, b⟩ := p
    unfold eraseAssoc at ih ⊢
    by_cases hk : a = k
    · simpa [List.filter_cons, hk] using ih
    · simpa [List.filter_cons, hk, List.lookup,
        beq_eq_false_iff_ne.mpr (Ne.symm hk)] using ih

/-- Deleting an absent key changes nothing. -/
lemma eraseAssoc_of_absent (m : List (String × β)) (k : String)
    (h : m.lookup k = none) : eraseAssoc m k = m := by
  induction m with
  | nil => rfl
  | cons p m ih =>
    obtain ⟨a, b⟩ := p
    by_cases hk : k = a
    · simp [List.lookup, hk] at h
    · have hl : m.lookup k = none := by
        simpa [List.lookup, beq_eq_false_iff_ne.mpr hk] using h
      simpa [eraseAssoc, List.filter_cons, Ne.symm hk] using ih hl

end AssocLemmas

/-- If the character data decomposes around the needle, Python `in` holds. -/
lemma strContains_of_parts (hay needle : String) (pre post : List Char)
    (h : hay.data = pre ++ (needle.data ++ post)) :
    strContains hay needle = true := by
  unfold strContains
  rw [List.any_eq_true]
  refine ⟨needle.data ++ post, ?_, ?_⟩
  · rw [List.mem_tails]
    exact ⟨pre, h.symm⟩
  · exact List.isPrefixOf_iff_prefix.mpr ⟨post, rfl⟩

/-- The rate-limit message contains the marker the route dispatches on. -/
lemma rateLimit_contains_marker (n : Nat) :
    strContains (rateLimitMessage n) "Rate limit" = true := by
  apply strContains_of_parts _ _ []
    (" exceeded: Maximum ".data ++ ((natDecimal n).data ++ " concurrent sessions per IP".data))
  have hA : "Rate limit exceeded: Maximum ".data
      = "Rate limit".data ++ " exceeded: Maximum ".data := by decide
  simp [rateLimitMessage, hA]

/-- The rate-limit message names the configured limit. -/
lemma rateLimit_contains_limit (n : Nat) :
    strContains (rateLimitMessage n) (natDecimal n) = true := by
  apply strContains_of_parts _ _ "Rate limit exceeded: Maximum ".data
    " concurrent sessions per IP".data
  simp [rateLimitMessage]

/-! ## Claim C2 -/

/-- A node value used in concrete instances. -/
def exNode : ThoughtNode :=
  ⟨"n1", .analysis, "content here", 0, [], [], ⟨0, 0⟩, "s"⟩

/-- A session already in the terminal status `"completed"`. -/
def exCompletedSession : PySession :=
  ⟨"s", "1.2.3.4", "completed", 0, [], 0, "", "", none⟩

/-- A one-session store holding `exCompletedSession`. -/
def exSM : SMState := ⟨[("s", exCompletedSession)], [("1.2.3.4", ["s"])], 3, 1⟩

/-- C2 counterexample: on a session whose status is `"completed"`,
`add_thought_node` does append a node, and `update_session` does change
`tokens_used` and `solution_text` — the terminal status freezes nothing. -/
theorem C2_counterexample :
    exCompletedSession.status = "completed" ∧
    exCompletedSession.thought_nodes.length = 0 ∧
    ((add_thought_node exSM "s" exNode).sessions.lookup "s").map
        (fun s => s.thought_nodes.length) = some 1 ∧
    exCompletedSession.tokens_used = 0 ∧
    ((update_session exSM "s" { tokens_used := some 42 }).sessions.lookup "s").map
        (fun s => s.tokens_used) = some 42 ∧
    ((update_session exSM "s" { solution_text := some "sol" }).sessions.lookup "s").map
        (fun s => s.solution_text) = some "sol" := by
  decide

/-- C2 (amended): for every existing session — regardless of status,
terminal or not — `add_thought_node` appends the node and `update_session`
overwrites the given fields; only a nonexistent session id makes either a
no-op. -/
theorem C2_theorem (st : SMState) (sid : String) (s : PySession)
    (nd : ThoughtNode) (u : SessionUpdate)
    (h : st.sessions.lookup sid = some s) :
    ((add_thought_node st sid nd).sessions.lookup sid
        = some { s with thought_nodes := s.thought_nodes ++ [nd] }) ∧
    ((update_session st sid u).sessions.lookup sid
        = some (applySessionUpdate s u)) ∧
    (∀ sid', st.sessions.lookup sid' = none →
        add_thought_node st sid' nd = st ∧ update_session st sid' u = st) := by
  refine ⟨?_, ?_, ?_⟩
  · unfold add_thought_node
    rw [h]
    exact lookup_setAssoc_self _ _ _
  · unfold update_session
    rw [h]
    exact lookup_setAssoc_self _ _ _
  · intro sid' h'
    unfold add_thought_node update_session
    rw [h']
    exact ⟨rfl, rfl⟩

/-- C2 witness: the amended statement at the concrete completed session. -/
theorem C2_witness :
    (add_thought_node exSM "s" exNode).sessions.lookup "s"
      = some { exCompletedSession with
                 thought_nodes := exCompletedSession.thought_nodes ++ [exNode] } :=
  (C2_theorem exSM "s" exCompletedSession exNode {} (by decide)).1

/-! ## Claim C3 -/

/-- C3: when the ip already has at least the configured cap of active
(non-terminal) sessions, `create_session` fails with the rate-limit
exception message — which names the configured limit and which the route
layer maps to 429, distinctly from the generic 500 — and the sessions
store is left unchanged. -/
theorem C3_theorem (st : SMState) (ip newSid : String) (now : Int)
    (h : st.max_concurrent_per_ip ≤ (activeSessionsForIp st ip).1.length) :
    (create_session st ip newSid now).1
        = Except.error (rateLimitMessage st.max_concurrent_per_ip) ∧
    strContains (rateLimitMessage st.max_concurrent_per_ip) "Rate limit" = true ∧
    strContains (rateLimitMessage st.max_concurrent_per_ip)
        (natDecimal st.max_concurrent_per_ip) = true ∧
    routeStatusForFailure (rateLimitMessage st.max_concurrent_per_ip) = 429 ∧
    (∀ msg : String, strContains msg "Rate limit" = false →
        routeStatusForFailure msg = 500) ∧
    (create_session st ip newSid now).2.sessions = st.sessions := by
  refine ⟨?_, rateLimit_contains_marker _, rateLimit_contains_limit _, ?_, ?_, ?_⟩
  · unfold create_session
    rw [if_pos h]
  · unfold routeStatusForFailure
    rw [if_pos (rateLimit_contains_marker _)]
  · intro msg hm
    unfold routeStatusForFailure
    rw [if_neg (by simp [hm])]
  · unfold create_session
    rw [if_pos h]
    rfl

/-- A non-terminal (`"streaming"`) session for the rate-limit scenario. -/
def exStreamSession (sid : String) : PySession :=
  ⟨sid, "9.9.9.9", "streaming", 0, [], 0, "", "", none⟩

/-- A store with three concurrent non-terminal sessions for one ip, cap 3. -/
def exSMfull : SMState :=
  ⟨[("a", exStreamSession "a"), ("b", exStreamSession "b"),
    ("c", exStreamSession "c")],
   [("9.9.9.9", ["a", "b", "c"])], 3, 1⟩

/-- C3 witness: with cap 3 and three active sessions, the 4th create fails
with the rate-limit message and no session is added. -/
theorem C3_witness :
    3 ≤ (activeSessionsForIp exSMfull "9.9.9.9").1.length ∧
    (create_session exSMfull "9.9.9.9" "d" 5).1
      = Except.error (rateLimitMessage 3) ∧
    routeStatusForFailure (rateLimitMessage 3) = 429 ∧
    (create_session exSMfull "9.9.9.9" "d" 5).2.sessions = exSMfull.sessions :=
  have h := C3_theorem exSMfull "9.9.9.9" "d" 5 (by decide)
  ⟨by decide, h.1, h.2.2.2.1, h.2.2.2.2.2⟩

/-! ## Claim C8 -/

lemma cleanupStep_sessions (acc : SMState) (sid : String) :
    (cleanupStep acc sid).sessions = eraseAssoc acc.sessions sid := by
  unfold cleanupStep
  cases h : acc.sessions.lookup sid with
  | none =>
    rw [eraseAssoc_of_absent _ _ h]
  | some s => rfl

lemma foldl_cleanupStep_sessions (ids : List String) :
    ∀ st : SMState,
      (ids.foldl cleanupStep st).sessions = ids.foldl eraseAssoc st.sessions := by
  induction ids with
  | nil => intro st; rfl
  | cons i ids ih =>
    intro st
    rw [List.foldl_cons, List.foldl_cons, ih, cleanupStep_sessions]

lemma foldl_eraseAssoc_eq_filter (ids : List String) :
    ∀ m : List (String × PySession),
      ids.foldl eraseAssoc m = m.filter (fun p => !ids.contains p.1) := by
  induction ids with
  | nil => intro m; simp
  | cons i ids ih =>
    intro m
    rw [List.foldl_cons, ih]
    show (eraseAssoc m i).filter _ = _
    unfold eraseAssoc
    rw [List.filter_filter]
    apply List.filter_congr
    intro p _
    by_cases hp : p.1 = i <;> simp [hp]

/-- C8: the sweep removes exactly the sessions created before
`now - cleanup_hours`, regardless of status, leaves every other session
record unchanged, and returns the exact removed count. -/
theorem C8_theorem (st : SMState) (now : Int)
    (hnd : (st.sessions.map Prod.fst).Nodup) :
    (cleanup_old_sessions st now).1
      = (st.sessions.filter
          (fun p => p.2.created_at < now - st.cleanup_hours * 3600)).length ∧
    (cleanup_old_sessions st now).2.sessions
      = st.sessions.filter
          (fun p => ¬ (p.2.created_at < now - st.cleanup_hours * 3600)) := by
  constructor
  · simp [cleanup_old_sessions]
  · unfold cleanup_old_sessions
    dsimp only
    rw [foldl_cleanupStep_sessions, foldl_eraseAssoc_eq_filter]
    apply List.filter_congr
    intro p hp
    by_cases hold : p.2.created_at < now - st.cleanup_hours * 3600
    · have hmem : p.1 ∈ (st.sessions.filter
          (fun q => q.2.created_at < now - st.cleanup_hours * 3600)).map Prod.fst :=
        List.mem_map.mpr ⟨p, List.mem_filter.mpr ⟨hp, by simpa using hold⟩, rfl⟩
      simp [hold, hmem]
    · have hmem : p.1 ∉ (st.sessions.filter
          (fun q => q.2.created_at < now - st.cleanup_hours * 3600)).map Prod.fst := by
        intro hmem
        obtain ⟨q, hq, hqe⟩ := List.mem_map.mp hmem
        obtain ⟨hq1, hq2⟩ := List.mem_filter.mp hq
        have : q = p := List.inj_on_of_nodup_map hnd hq1 hp hqe
        subst this
        exact hold (by simpa using hq2)
      simp [hold, hmem]

/-- A mixed store: an old completed session, an old streaming session, and
a fresh one (`created_at` in seconds, one-hour retention). -/
def exSweepStore : SMState :=
  ⟨[("old1", { exStreamSession "old1" with created_at := 0, status := "completed" }),
    ("old2", { exStreamSession "old2" with created_at := 100 }),
    ("new1", { exStreamSession "new1" with created_at := 9000 })],
   [], 3, 1⟩

/-- C8 witness: sweeping `exSweepStore` at `now = 10000` removes exactly
the two sessions older than one hour — the completed one included — and
returns 2. -/
theorem C8_witness :
    (exSweepStore.sessions.map Prod.fst).Nodup ∧
    (cleanup_old_sessions exSweepStore 10000).1 = 2 ∧
    ((cleanup_old_sessions exSweepStore 10000).2.sessions).map Prod.fst
      = ["new1"] := by
  have h := C8_theorem exSweepStore 10000 (by decide)
  refine ⟨by decide, ?_, ?_⟩
  · rw [h.1]
    decide
  · rw [h.2]
    decide

/-! ## Claim C4 -/

lemma subscribersOf_wsDisconnect (st : WSState) (sid : String) (c : ConnId) :
    subscribersOf (wsDisconnect st sid c) sid = (subscribersOf st sid).erase c := by
  unfold wsDisconnect subscribersOf
  cases h : st.active_connections.lookup sid with
  | none => simp [h]
  | some l =>
    dsimp only
    have hl : (if l.contains c then l.erase c else l) = l.erase c := by
      by_cases hc : l.contains c
      · rw [if_pos hc]
      · rw [if_neg hc]
        exact (List.erase_of_not_mem (by simpa using hc)).symm
    rw [hl]
    by_cases he : (l.erase c).isEmpty
    · rw [if_pos he]
      rw [lookup_eraseAssoc_self]
      simpa [List.isEmpty_iff] using he.symm
    · rw [if_neg he]
      rw [lookup_setAssoc_self]
      rfl

lemma subscribersOf_foldl_disconnect (sid : String) (ds : List ConnId) :
    ∀ st : WSState,
      subscribersOf (ds.foldl (fun s c => wsDisconnect s sid c) st) sid
        = ds.foldl (fun l c => l.erase c) (subscribersOf st sid) := by
  induction ds with
  | nil => intro st; rfl
  | cons d ds ih =>
    intro st
    rw [List.foldl_cons, List.foldl_cons, ih, subscribersOf_wsDisconnect]

lemma foldl_erase_eq_filter (ds : List ConnId) :
    ∀ l : List ConnId, l.Nodup →
      ds.foldl (fun acc c => acc.erase c) l
        = l.filter (fun c => !ds.contains c) := by
  induction ds with
  | nil => intro l _; simp
  | cons d ds ih =>
    intro l hnd
    rw [List.foldl_cons, ih _ (hnd.erase d), hnd.erase_eq_filter, List.filter_filter]
    apply List.filter_congr
    intro c _
    by_cases hc : c = d <;> simp [hc]

/-- C4: a publish on a session with no registered subscribers is a no-op;
otherwise exactly the non-failing subscribers receive the envelope on that
same call, every failing subscriber is removed from the session's
subscriber set, and every non-failing subscriber remains registered. -/
theorem C4_theorem (fails : ConnId → Bool) (st : WSState) (sid : String)
    (et : String) (data : List (String × String)) (now : Int) :
    (st.active_connections.lookup sid = none →
      broadcast fails st sid et data now = ([], st)) ∧
    (∀ conns, st.active_connections.lookup sid = some conns → conns.Nodup →
      (broadcast fails st sid et data now).1
        = (conns.filter (fun c => !fails c)).map
            (fun c => (c, WireMsg.event et sid data now)) ∧
      subscribersOf (broadcast fails st sid et data now).2 sid
        = conns.filter (fun c => !fails c) ∧
      (∀ c ∈ conns, fails c = true →
        c ∉ subscribersOf (broadcast fails st sid et data now).2 sid) ∧
      (∀ c ∈ conns, fails c = false →
        (c, WireMsg.event et sid data now) ∈ (broadcast fails st sid et data now).1 ∧
        c ∈ subscribersOf (broadcast fails st sid et data now).2 sid)) := by
  constructor
  · intro h
    unfold broadcast
    rw [h]
  · intro conns h hnd
    have hsub : subscribersOf (broadcast fails st sid et data now).2 sid
        = conns.filter (fun c => !fails c) := by
      unfold broadcast
      rw [h]
      dsimp only
      rw [subscribersOf_foldl_disconnect]
      have hs : subscribersOf st sid = conns := by
        unfold subscribersOf
        rw [h]
        rfl
      rw [hs, foldl_erase_eq_filter _ _ hnd]
      apply List.filter_congr
      intro c hc
      by_cases hf : fails c
      · simp [hf, hc]
      · simp [hf]
    have hdel : (broadcast fails st sid et data now).1
        = (conns.filter (fun c => !fails c)).map
            (fun c => (c, WireMsg.event et sid data now)) := by
      unfold broadcast
      rw [h]
    refine ⟨hdel, hsub, ?_, ?_⟩
    · intro c _ hf
      rw [hsub]
      simp [List.mem_filter, hf]
    · intro c hc hf
      constructor
      · rw [hdel]
        exact List.mem_map.mpr ⟨c, List.mem_filter.mpr ⟨hc, by simp [hf]⟩, rfl⟩
      · rw [hsub]
        exact List.mem_filter.mpr ⟨hc, by simp [hf]⟩

/-- C4 witness: two subscribers, of which connection 0 fails delivery:
connection 1 still receives the event on the same call, 0 is removed,
1 stays; and a publish on a session with no subscribers is a no-op. -/
theorem C4_witness :
    (broadcast (fun c => c == 0) ⟨[("s", [0, 1])]⟩ "s" "new_thought" [] 7).1
      = [(1, WireMsg.event "new_thought" "s" [] 7)] ∧
    subscribersOf (broadcast (fun c => c == 0) ⟨[("s", [0, 1])]⟩ "s"
        "new_thought" [] 7).2 "s" = [1] ∧
    broadcast (fun c => c == 0) ⟨[("t", [5])]⟩ "s" "error" [] 7
      = ([], ⟨[("t", [5])]⟩) := by
  have h := (C4_theorem (fun c => c == 0) ⟨[("s", [0, 1])]⟩ "s"
      "new_thought" [] 7).2 [0, 1] (by decide) (by decide)
  have h0 := (C4_theorem (fun c => c == 0) ⟨[("t", [5])]⟩ "s" "error" [] 7).1
      (by decide)
  exact ⟨by rw [h.1]; decide, by rw [h.2.1]; decide, h0⟩

/-! ## Claim C9 -/

/-- Every message a `broadcast` call delivers is the event envelope it
built. -/
lemma broadcast_delivered_msg (fails : ConnId → Bool) (st : WSState)
    (sid et : String) (data : List (String × String)) (now : Int) :
    ∀ pr ∈ (broadcast fails st sid et data now).1,
      pr.2 = WireMsg.event et sid data now := by
  intro pr hpr
  unfold broadcast at hpr
  cases h : st.active_connections.lookup sid with
  | none =>
    rw [h] at hpr
    simp at hpr
  | some conns =>
    rw [h] at hpr
    dsimp only at hpr
    obtain ⟨c, _, he⟩ := List.mem_map.mp hpr
    rw [← he]

/-- C9 counterexample: the connection acknowledgment delivered on register
carries the fields `event_type, session_id, message, timestamp` — its
payload field is named `message`, not `data` — so not every delivered
message is the claimed `{event_type, session_id, data, timestamp}`
envelope. -/
theorem C9_counterexample :
    wireEventType (wsConnect ⟨[]⟩ "s" 7 0).2.2 = "connected" ∧
    wireKeys (wsConnect ⟨[]⟩ "s" 7 0).2.2
      = ["event_type", "session_id", "message", "timestamp"] ∧
    "data" ∉ wireKeys (wsConnect ⟨[]⟩ "s" 7 0).2.2 := by
  decide

/-- C9 (amended): every message delivered by the four broadcast helpers is
an envelope with exactly the fields `event_type, session_id, data,
timestamp` and `event_type ∈ {new_thought, thinking_complete,
solution_ready, error}`, while the acknowledgment sent on register goes to
the registering connection alone, has `event_type = "connected"`, and
carries a `message` field in place of `data`. -/
theorem C9_theorem (fails : ConnId → Bool) (st : WSState) (sid : String)
    (ws : ConnId) (now : Int) (payload : List (String × String))
    (em et2 : String) :
    (∀ pr ∈ (broadcast_new_thought fails st sid payload now).1,
      wireKeys pr.2 = ["event_type", "session_id", "data", "timestamp"] ∧
      wireEventType pr.2 = "new_thought") ∧
    (∀ pr ∈ (broadcast_thinking_complete fails st sid payload now).1,
      wireKeys pr.2 = ["event_type", "session_id", "data", "timestamp"] ∧
      wireEventType pr.2 = "thinking_complete") ∧
    (∀ pr ∈ (broadcast_solution_ready fails st sid payload now).1,
      wireKeys pr.2 = ["event_type", "session_id", "data", "timestamp"] ∧
      wireEventType pr.2 = "solution_ready") ∧
    (∀ pr ∈ (broadcast_error fails st sid em et2 now).1,
      wireKeys pr.2 = ["event_type", "session_id", "data", "timestamp"] ∧
      wireEventType pr.2 = "error") ∧
    ((wsConnect st sid ws now).2.1 = ws ∧
     wireEventType (wsConnect st sid ws now).2.2 = "connected" ∧
     wireKeys (wsConnect st sid ws now).2.2
       = ["event_type", "session_id", "message", "timestamp"]) := by
  refine ⟨?_, ?_, ?_, ?_, rfl, rfl, rfl⟩ <;>
    intro pr hpr <;>
    rw [broadcast_delivered_msg _ _ _ _ _ _ pr hpr] <;>
    exact ⟨rfl, rfl⟩

/-- C9 witness: the amended statement at a session with one healthy
subscriber receiving a `new_thought` event. -/
theorem C9_witness :
    wireKeys (WireMsg.event "new_thought" "s" [] 3)
      = ["event_type", "session_id", "data", "timestamp"] ∧
    wireEventType (WireMsg.event "new_thought" "s" [] 3) = "new_thought" :=
  (C9_theorem (fun _ => false) ⟨[("s", [4])]⟩ "s" 4 3 [] "boom" "general").1
    (4, WireMsg.event "new_thought" "s" [] 3) (by decide)

/-! ## Claim C10 -/

/-- Distinct counters give distinct node ids. -/
lemma mkNodeId_ne (sid : String) {a b : Nat} (h : a ≠ b) :
    mkNodeId sid a ≠ mkNodeId sid b := by
  intro he
  apply h
  unfold mkNodeId at he
  have hd := congrArg String.data he
  simp only [String.data_append, List.append_assoc] at hd
  have hd2 : (natDecimal a).data = (natDecimal b).data :=
    List.append_cancel_left (List.append_cancel_left hd)
  have := decValue_natDecimalAux a
  rw [show natDecimalAux a = (natDecimal a).data from rfl, hd2,
    show (natDecimal b).data = natDecimalAux b from rfl,
    decValue_natDecimalAux] at this
  omega

/-- On a segment whose stripped length is at least 10,
`_create_node_from_segment` produces a node carrying the stripped content
and the next counter's id, and leaves the accumulation buffer untouched. -/
lemma createNode_spec (st : ParserState) (seg : String)
    (h : 10 ≤ (pyStrip seg).length) :
    ∃ nd st', createNodeFromSegment st seg = (some nd, st') ∧
      nd.content = pyStrip seg ∧
      nd.id = mkNodeId st.session_id (st.node_counter + 1) ∧
      st'.node_counter = st.node_counter + 1 ∧
      st'.accumulated_text = st.accumulated_text ∧
      st'.session_id = st.session_id := by
  have hseg : seg ≠ "" := by
    intro he
    rw [he] at h
    simp [pyStrip, stripChars, String.length] at h
  unfold createNodeFromSegment
  rw [if_neg (by simp [hseg]; omega)]
  exact ⟨_, _, rfl, rfl, rfl, rfl, rfl, rfl⟩

/-- C10: `finalize` does not clear the accumulation buffer — on a parser
whose buffered text strips to at least 10 characters, two consecutive
`finalize` calls each yield a node, the two nodes having identical content
but distinct ids built from strictly increasing counters. -/
theorem C10_theorem (st : ParserState)
    (h : 10 ≤ (pyStrip st.accumulated_text).length) :
    ∃ n1 st1 n2 st2,
      finalizeParser st = ([n1], st1) ∧
      finalizeParser st1 = ([n2], st2) ∧
      n1.content = n2.content ∧
      n1.id = mkNodeId st.session_id (st.node_counter + 1) ∧
      n2.id = mkNodeId st.session_id (st.node_counter + 2) ∧
      n1.id ≠ n2.id := by
  have hne : pyStrip st.accumulated_text ≠ "" := by
    intro he
    rw [he] at h
    simp [String.length] at h
  obtain ⟨n1, st1, he1, hc1, hi1, hk1, ha1, hs1⟩ := createNode_spec st st.accumulated_text h
  have h2 : 10 ≤ (pyStrip st1.accumulated_text).length := by rw [ha1]; exact h
  have hne2 : pyStrip st1.accumulated_text ≠ "" := by rw [ha1]; exact hne
  obtain ⟨n2, st2, he2, hc2, hi2, hk2, ha2, hs2⟩ := createNode_spec st1 st1.accumulated_text h2
  refine ⟨n1, st1, n2, st2, ?_, ?_, ?_, hi1, ?_, ?_⟩
  · unfold finalizeParser
    rw [if_pos hne, he1]
  · unfold finalizeParser
    rw [if_pos hne2, he2]
  · rw [hc1, hc2, ha1]
  · rw [hi2, hk1, hs1]
  · rw [hi1, hi2, hk1, hs1]
    exact mkNodeId_ne _ (by omega)

/-- A parser state with a residual buffer of stripped length ≥ 10. -/
def exFinalizeState : ParserState :=
  { initParser "s" with accumulated_text := "abcdefghij klm" }

/-- C10 witness: the theorem at the concrete buffered state. -/
theorem C10_witness :
    10 ≤ (pyStrip exFinalizeState.accumulated_text).length ∧
    ∃ n1 st1 n2 st2,
      finalizeParser exFinalizeState = ([n1], st1) ∧
      finalizeParser st1 = ([n2], st2) ∧
      n1.content = n2.content ∧
      n1.id = mkNodeId exFinalizeState.session_id (exFinalizeState.node_counter + 1) ∧
      n2.id = mkNodeId exFinalizeState.session_id (exFinalizeState.node_counter + 2) ∧
      n1.id ≠ n2.id :=
  ⟨by decide, C10_theorem exFinalizeState (by decide)⟩

/-! ## Claim C7 -/

lemma counterKeysF_subset :
    ∀ (fuel : Nat) (l : List String), ∀ x ∈ counterKeysF fuel l, x ∈ l := by
  intro fuel
  induction fuel with
  | zero =>
    intro l x hx
    simp [counterKeysF] at hx
  | succ fuel ih =>
    intro l x hx
    cases l with
    | nil => simp [counterKeysF] at hx
    | cons y ys =>
      rw [counterKeysF] at hx
      rcases List.mem_cons.mp hx with hx | hx
      · exact hx ▸ List.mem_cons_self _ _
      · exact List.mem_cons_of_mem _ (List.mem_of_mem_filter (ih _ x hx))

lemma counterKeys_subset (l : List String) : ∀ x ∈ counterKeys l, x ∈ l :=
  counterKeysF_subset l.length l

lemma counterKeysF_nodup :
    ∀ (fuel : Nat) (l : List String), (counterKeysF fuel l).Nodup := by
  intro fuel
  induction fuel with
  | zero =>
    intro l
    simp [counterKeysF]
  | succ fuel ih =>
    intro l
    cases l with
    | nil => simp [counterKeysF]
    | cons y ys =>
      rw [counterKeysF]
      refine List.nodup_cons.mpr ⟨?_, ih _⟩
      intro hx
      have := counterKeysF_subset _ _ _ hx
      simp at this

lemma counterKeys_nodup (l : List String) : (counterKeys l).Nodup :=
  counterKeysF_nodup l.length l

/-- The clamp of `calculate_confidence` keeps every result in `[0, 1]`. -/
lemma calculate_confidence_bounds (text : String) :
    0 ≤ calculate_confidence text ∧ calculate_confidence text ≤ 1 := by
  unfold calculate_confidence
  constructor
  · exact le_max_left 0 _
  · exact max_le (by norm_num) (min_le_left _ _)

/-- The structural guarantees of `extract_keywords`. -/
lemma extract_keywords_props (text : String) :
    (extract_keywords text).length ≤ 5 ∧
    (extract_keywords text).Nodup ∧
    (∀ w ∈ extract_keywords text,
      w.data ≠ [] ∧ w.data.all isLowerAlpha = true ∧ 3 ≤ w.length ∧
      w ∉ stopWords) ∧
    (extract_keywords text).Chain'
      (fun a b => keywordFreq text b ≤ keywordFreq text a) := by
  refine ⟨selectTop_length_le _ _ _, selectTop_nodup _ _ _ (counterKeys_nodup _),
    ?_, selectTop_chain _ _ _⟩
  intro w hw
  have h1 := selectTop_subset _ _ _ w hw
  have h2 := counterKeys_subset _ w h1
  obtain ⟨h3, h4⟩ := List.mem_filter.mp h2
  obtain ⟨r, hr, he⟩ := List.mem_filterMap.mp h3
  have hstop : w ∉ stopWords := by simpa using h4
  by_cases hp : r.all isLowerAlpha && 3 ≤ r.length
  · rw [if_pos hp] at he
    obtain ⟨hall, hlen⟩ : r.all isLowerAlpha = true ∧ 3 ≤ r.length := by
      simpa using hp
    have hwr : w.data = r := by
      have := Option.some.inj he
      rw [← this]
    refine ⟨?_, by rw [hwr]; exact hall, ?_, hstop⟩
    · rw [hwr]
      intro hnil
      rw [hnil] at hlen
      simp at hlen
    · have : w.length = r.length := by rw [show w.length = w.data.length from rfl, hwr]
      rw [this]
      simpa using hlen
  · rw [if_neg hp] at he
    exact absurd he (by simp)

/-- C7: `calculate_confidence` always lands in `[0, 1]`;
`extract_keywords` returns at most 5 distinct keywords, each a non-stop
lowercase alphabetic token of length ≥ 3, ranked by non-increasing
frequency; hence every node `_create_node_from_segment` produces satisfies
`confidence ∈ [0, 1]` and has at most 5 distinct keywords. -/
theorem C7_theorem (text : String) :
    (0 ≤ calculate_confidence text ∧ calculate_confidence text ≤ 1) ∧
    ((extract_keywords text).length ≤ 5 ∧
     (extract_keywords text).Nodup ∧
     (∀ w ∈ extract_keywords text,
        w.data ≠ [] ∧ w.data.all isLowerAlpha = true ∧ 3 ≤ w.length ∧
        w ∉ stopWords) ∧
     (extract_keywords text).Chain'
        (fun a b => keywordFreq text b ≤ keywordFreq text a)) ∧
    (∀ (st : ParserState) (seg : String) (nd : ThoughtNode) (st' : ParserState),
      createNodeFromSegment st seg = (some nd, st') →
      0 ≤ nd.confidence ∧ nd.confidence ≤ 1 ∧
      nd.keywords.length ≤ 5 ∧ nd.keywords.Nodup) := by
  refine ⟨calculate_confidence_bounds text, extract_keywords_props text, ?_⟩
  intro st seg nd st' h
  unfold createNodeFromSegment at h
  split at h
  · exact absurd h (by simp)
  · rw [Prod.mk.injEq] at h
    have hnd := Option.some.inj h.1
    rw [← hnd]
    exact ⟨(calculate_confidence_bounds seg).1, (calculate_confidence_bounds seg).2,
      (extract_keywords_props seg).1, (extract_keywords_props seg).2.1⟩

/-- C7 witness: the guarantees at a concrete segment and the node built
from it. -/
theorem C7_witness :
    0 ≤ calculate_confidence "Check the bounds carefully maybe" ∧
    (extract_keywords "Check the bounds carefully maybe").length ≤ 5 ∧
    ((createNodeFromSegment (initParser "s") "Check the bounds carefully maybe").1.elim
      False (fun nd => nd.keywords.length ≤ 5 ∧ nd.keywords.Nodup)) := by
  have h := C7_theorem "Check the bounds carefully maybe"
  refine ⟨h.1.1, h.2.1.1, ?_⟩
  obtain ⟨nd, st', he, _⟩ :=
    createNode_spec (initParser "s") "Check the bounds carefully maybe" (by decide)
  rw [he]
  simpa using (h.2.2 _ _ _ _ he).2.2

/-! ## Claim C6 -/

/-- Non-overlapping left-to-right occurrence count of `needle` (the
claim's reading of scoring); `fuel` bounds the scan. -/
def occCountAux (needle : List Char) : Nat → List Char → Nat
  | 0, _ => 0
  | _ + 1, [] => 0
  | fuel + 1, c :: cs =>
    if needle ≠ [] && needle.isPrefixOf (c :: cs) then
      1 + occCountAux needle fuel ((c :: cs).drop needle.length)
    else occCountAux needle fuel cs

/-- Non-overlapping occurrences of `needle` in `hay`. -/
def occCount (hay needle : List Char) : Nat :=
  occCountAux needle (hay.length + 1) hay

/-- The claim's score: total (non-overlapping) occurrences of the
keyword set's members in the lowered text. -/
def occScore (tl : String) (kws : List String) : Nat :=
  (kws.map (fun kw => occCount tl.data kw.data)).sum

/-- The highest-scoring type, ties broken by the priority order
implementation > verification > decision > alternative > analysis, with
`analysis` when every score is zero. -/
def priorityArgmax (s : ThoughtType → Nat) : ThoughtType :=
  let m := (s .implementation).max ((s .verification).max
    ((s .decision).max ((s .alternative).max (s .analysis))))
  if m = 0 then .analysis
  else if s .implementation = m then .implementation
  else if s .verification = m then .verification
  else if s .decision = m then .decision
  else if s .alternative = m then .alternative
  else .analysis

/-- The amended claim's classifier: presence scores (each keyword counted
at most once), priority tie-break, zero default. -/
def specClassifyPresence (text : String) : ThoughtType :=
  priorityArgmax (fun t => presenceScore (strToLower text) (keywordSetOf t))

/-- The frozen claim's classifier: occurrence-count scores with the same
tie-break and default. -/
def claimClassifyOcc (text : String) : ThoughtType :=
  priorityArgmax (fun t => occScore (strToLower text) (keywordSetOf t))

/-- C6 counterexample: on `"check check check code build"` the
occurrence-count reading scores verification 3 (`check` three times)
against implementation 2, yet the code returns implementation, because it
scores presence (at most 1 per keyword), not occurrences. -/
theorem C6_counterexample :
    classify_thought_type "check check check code build"
      = ThoughtType.implementation ∧
    claimClassifyOcc "check check check code build"
      = ThoughtType.verification ∧
    occScore "check check check code build" verificationKeywords = 3 ∧
    occScore "check check check code build" implementationKeywords = 2 ∧
    presenceScore "check check check code build" verificationKeywords = 1 ∧
    presenceScore "check check check code build" implementationKeywords = 2 := by
  decide

/-- Five scores packaged as a function on thought types, in the priority
order implementation, verification, decision, alternative, analysis. -/
def scoresFn (s1 s2 s3 s4 s5 : Nat) : ThoughtType → Nat
  | .implementation => s1
  | .verification => s2
  | .decision => s3
  | .alternative => s4
  | .analysis => s5

lemma priorityArgmax_impl (s1 s2 s3 s4 s5 : Nat) (h2 : s2 ≤ s1) (h3 : s3 ≤ s1)
    (h4 : s4 ≤ s1) (h5 : s5 ≤ s1) (h0 : 0 < s1) :
    priorityArgmax (scoresFn s1 s2 s3 s4 s5) = .implementation := by
  unfold priorityArgmax scoresFn
  dsimp only
  have hm : s1.max (s2.max (s3.max (s4.max s5))) = s1 := by
    simp only [Nat.max_def]
    split_ifs <;> omega
  rw [hm, if_neg (by omega), if_pos rfl]

lemma priorityArgmax_verif (s1 s2 s3 s4 s5 : Nat) (h1 : s1 < s2) (h3 : s3 ≤ s2)
    (h4 : s4 ≤ s2) (h5 : s5 ≤ s2) :
    priorityArgmax (scoresFn s1 s2 s3 s4 s5) = .verification := by
  unfold priorityArgmax scoresFn
  dsimp only
  have hm : s1.max (s2.max (s3.max (s4.max s5))) = s2 := by
    simp only [Nat.max_def]
    split_ifs <;> omega
  rw [hm, if_neg (by omega), if_neg (by omega), if_pos rfl]

lemma priorityArgmax_dec (s1 s2 s3 s4 s5 : Nat) (h1 : s1 < s3) (h2 : s2 < s3)
    (h4 : s4 ≤ s3) (h5 : s5 ≤ s3) :
    priorityArgmax (scoresFn s1 s2 s3 s4 s5) = .decision := by
  unfold priorityArgmax scoresFn
  dsimp only
  have hm : s1.max (s2.max (s3.max (s4.max s5))) = s3 := by
    simp only [Nat.max_def]
    split_ifs <;> omega
  rw [hm, if_neg (by omega), if_neg (by omega), if_neg (by omega), if_pos rfl]

lemma priorityArgmax_alt (s1 s2 s3 s4 s5 : Nat) (h1 : s1 < s4) (h2 : s2 < s4)
    (h3 : s3 < s4) (h5 : s5 ≤ s4) :
    priorityArgmax (scoresFn s1 s2 s3 s4 s5) = .alternative := by
  unfold priorityArgmax scoresFn
  dsimp only
  have hm : s1.max (s2.max (s3.max (s4.max s5))) = s4 := by
    simp only [Nat.max_def]
    split_ifs <;> omega
  rw [hm, if_neg (by omega), if_neg (by omega), if_neg (by omega),
    if_neg (by omega), if_pos rfl]

lemma priorityArgmax_ana_pos (s1 s2 s3 s4 s5 : Nat) (h1 : s1 < s5) (h2 : s2 < s5)
    (h3 : s3 < s5) (h4 : s4 < s5) :
    priorityArgmax (scoresFn s1 s2 s3 s4 s5) = .analysis := by
  unfold priorityArgmax scoresFn
  dsimp only
  have hm : s1.max (s2.max (s3.max (s4.max s5))) = s5 := by
    simp only [Nat.max_def]
    split_ifs <;> omega
  rw [hm, if_neg (by omega), if_neg (by omega), if_neg (by omega),
    if_neg (by omega), if_neg (by omega)]

lemma priorityArgmax_zero (s1 s2 s3 s4 s5 : Nat) (h1 : s1 = 0) (h2 : s2 = 0)
    (h3 : s3 = 0) (h4 : s4 = 0) (h5 : s5 = 0) :
    priorityArgmax (scoresFn s1 s2 s3 s4 s5) = .analysis := by
  unfold priorityArgmax scoresFn
  dsimp only
  have hm : s1.max (s2.max (s3.max (s4.max s5))) = 0 := by
    simp only [Nat.max_def]
    split_ifs <;> omega
  rw [hm, if_pos rfl]

/-- The Python `max(scores.items(), key=...)[0] if positive else analysis`
computation agrees with the highest-score, priority-tie-break, zero-default
description. -/
lemma classifyFold_eq_priorityArgmax (s1 s2 s3 s4 s5 : Nat) :
    (if 0 < ([((ThoughtType.verification : ThoughtType), s2),
        (ThoughtType.decision, s3), (ThoughtType.alternative, s4),
        (ThoughtType.analysis, s5)].foldl
        (fun (b y : ThoughtType × Nat) => if b.2 < y.2 then y else b)
        (ThoughtType.implementation, s1)).2
      then ([((ThoughtType.verification : ThoughtType), s2),
        (ThoughtType.decision, s3), (ThoughtType.alternative, s4),
        (ThoughtType.analysis, s5)].foldl
        (fun (b y : ThoughtType × Nat) => if b.2 < y.2 then y else b)
        (ThoughtType.implementation, s1)).1
      else ThoughtType.analysis)
    = priorityArgmax (scoresFn s1 s2 s3 s4 s5) := by
  simp only [List.foldl_cons, List.foldl_nil]
  dsimp only
  by_cases h12 : s1 < s2
  · rw [if_pos h12]
    dsimp only
    by_cases h23 : s2 < s3
    · rw [if_pos h23]
      dsimp only
      by_cases h34 : s3 < s4
      · rw [if_pos h34]
        dsimp only
        by_cases h45 : s4 < s5
        · rw [if_pos h45]
          dsimp only
          rw [if_pos (by omega)]
          exact (priorityArgmax_ana_pos s1 s2 s3 s4 s5 (by omega) (by omega)
            (by omega) (by omega)).symm
        · rw [if_neg h45]
          dsimp only
          rw [if_pos (by omega)]
          exact (priorityArgmax_alt s1 s2 s3 s4 s5 (by omega) (by omega)
            (by omega) (by omega)).symm
      · rw [if_neg h34]
        dsimp only
        by_cases h35 : s3 < s5
        · rw [if_pos h35]
          dsimp only
          rw [if_pos (by omega)]
          exact (priorityArgmax_ana_pos s1 s2 s3 s4 s5 (by omega) (by omega)
            (by omega) (by omega)).symm
        · rw [if_neg h35]
          dsimp only
          rw [if_pos (by omega)]
          exact (priorityArgmax_dec s1 s2 s3 s4 s5 (by omega) (by omega)
            (by omega) (by omega)).symm
    · rw [if_neg h23]
      dsimp only
      by_cases h24 : s2 < s4
      · rw [if_pos h24]
        dsimp only
        by_cases h45 : s4 < s5
        · rw [if_pos h45]
          dsimp only
          rw [if_pos (by omega)]
          exact (priorityArgmax_ana_pos s1 s2 s3 s4 s5 (by omega) (by omega)
            (by omega) (by omega)).symm
        · rw [if_neg h45]
          dsimp only
          rw [if_pos (by omega)]
          exact (priorityArgmax_alt s1 s2 s3 s4 s5 (by omega) (by omega)
            (by omega) (by omega)).symm
      · rw [if_neg h24]
        dsimp only
        by_cases h25 : s2 < s5
        · rw [if_pos h25]
          dsimp only
          rw [if_pos (by omega)]
          exact (priorityArgmax_ana_pos s1 s2 s3 s4 s5 (by omega) (by omega)
            (by omega) (by omega)).symm
        · rw [if_neg h25]
          dsimp only
          rw [if_pos (by omega)]
          exact (priorityArgmax_verif s1 s2 s3 s4 s5 (by omega) (by omega)
            (by omega) (by omega)).symm
  · rw [if_neg h12]
    dsimp only
    by_cases h13 : s1 < s3
    · rw [if_pos h13]
      dsimp only
      by_cases h34 : s3 < s4
      · rw [if_pos h34]
        dsimp only
        by_cases h45 : s4 < s5
        · rw [if_pos h45]
          dsimp only
          rw [if_pos (by omega)]
          exact (priorityArgmax_ana_pos s1 s2 s3 s4 s5 (by omega) (by omega)
            (by omega) (by omega)).symm
        · rw [if_neg h45]
          dsimp only
          rw [if_pos (by omega)]
          exact (priorityArgmax_alt s1 s2 s3 s4 s5 (by omega) (by omega)
            (by omega) (by omega)).symm
      · rw [if_neg h34]
        dsimp only
        by_cases h35 : s3 < s5
        · rw [if_pos h35]
          dsimp only
          rw [if_pos (by omega)]
          exact (priorityArgmax_ana_pos s1 s2 s3 s4 s5 (by omega) (by omega)
            (by omega) (by omega)).symm
        · rw [if_neg h35]
          dsimp only
          rw [if_pos (by omega)]
          exact (priorityArgmax_dec s1 s2 s3 s4 s5 (by omega) (by omega)
            (by omega) (by omega)).symm
    · rw [if_neg h13]
      dsimp only
      by_cases h14 : s1 < s4
      · rw [if_pos h14]
        dsimp only
        by_cases h45 : s4 < s5
        · rw [if_pos h45]
          dsimp only
          rw [if_pos (by omega)]
          exact (priorityArgmax_ana_pos s1 s2 s3 s4 s5 (by omega) (by omega)
            (by omega) (by omega)).symm
        · rw [if_neg h45]
          dsimp only
          rw [if_pos (by omega)]
          exact (priorityArgmax_alt s1 s2 s3 s4 s5 (by omega) (by omega)
            (by omega) (by omega)).symm
      · rw [if_neg h14]
        dsimp only
        by_cases h15 : s1 < s5
        · rw [if_pos h15]
          dsimp only
          rw [if_pos (by omega)]
          exact (priorityArgmax_ana_pos s1 s2 s3 s4 s5 (by omega) (by omega)
            (by omega) (by omega)).symm
        · rw [if_neg h15]
          dsimp only
          by_cases h0 : 0 < s1
          · rw [if_pos h0]
            exact (priorityArgmax_impl s1 s2 s3 s4 s5 (by omega) (by omega)
              (by omega) (by omega) h0).symm
          · rw [if_neg h0]
            exact (priorityArgmax_zero s1 s2 s3 s4 s5 (by omega) (by omega)
              (by omega) (by omega) (by omega)).symm

/-- C6 (amended): `classify_thought_type` scores each of the five types by
how many of that type's keywords are present (case-insensitive substring,
each keyword contributing at most 1 — not an occurrence count), the highest
score wins, ties break by implementation > verification > decision >
alternative > analysis, and an all-zero score yields analysis. -/
theorem C6_theorem (text : String) :
    classify_thought_type text = specClassifyPresence text := by
  have hfun : (fun t => presenceScore (strToLower text) (keywordSetOf t))
      = scoresFn (presenceScore (strToLower text) implementationKeywords)
          (presenceScore (strToLower text) verificationKeywords)
          (presenceScore (strToLower text) decisionKeywords)
          (presenceScore (strToLower text) alternativeKeywords)
          (presenceScore (strToLower text) analysisKeywords) := by
    funext t
    cases t <;> rfl
  unfold classify_thought_type specClassifyPresence
  rw [hfun]
  exact classifyFold_eq_priorityArgmax _ _ _ _ _

/-! ## Claim C5 -/

/-- Every produced node's id is the counter-indexed id of its position. -/
def nodeIdsOk (sid : String) (produced : List ThoughtNode) : Prop :=
  ∀ j (h : j < produced.length), (produced.get ⟨j, h⟩).id = mkNodeId sid (j + 1)

/-- The invariant tying a live parser state to the full ordered list of
nodes it has produced so far: the counter counts them, the rolling window
is their (at most five long) suffix, and ids are counter-indexed. -/
def ParserInv (sid : String) (st : ParserState) (produced : List ThoughtNode) : Prop :=
  st.session_id = sid ∧
  st.node_counter = produced.length ∧
  st.recent_nodes = produced.drop (produced.length - 5) ∧
  nodeIdsOk sid produced

/-- The dependency discipline of the claim, over a produced-node list. -/
def GoodDeps (sid : String) (produced : List ThoughtNode) : Prop :=
  ∀ k (h : k < produced.length), 0 < k →
    (produced.get ⟨k, h⟩).dependencies ≠ [] ∧
    ∀ d ∈ (produced.get ⟨k, h⟩).dependencies, ∃ j, j < k ∧ d = mkNodeId sid (j + 1)

lemma mem_of_getLastSome {α : Type} {l : List α} {x : α}
    (h : l.getLast? = some x) : x ∈ l := by
  cases l with
  | nil => simp at h
  | cons a as =>
    have hne : (a :: as) ≠ [] := by simp
    rw [List.getLast?_eq_getLast _ hne] at h
    rw [← Option.some.inj h]
    exact List.getLast_mem hne

/-- Everything the shared-keyword fold of `detect_dependencies` adds is the
id of a node in the window it folds over. -/
lemma depsFold_mem (kws : List String) (l : List ThoughtNode) :
    ∀ (acc : List String) (d : String),
      d ∈ l.foldl (fun acc rn =>
        if 2 ≤ count_shared_keywords kws rn.keywords && !acc.contains rn.id
        then acc ++ [rn.id] else acc) acc →
      d ∈ acc ∨ ∃ rn ∈ l, d = rn.id := by
  induction l with
  | nil =>
    intro acc d hd
    exact Or.inl hd
  | cons rn l ih =>
    intro acc d hd
    rw [List.foldl_cons] at hd
    rcases ih _ d hd with h | ⟨rn1, hrn1, he⟩
    · split at h
      · rcases List.mem_append.mp h with h | h
        · exact Or.inl h
        · exact Or.inr ⟨rn, List.mem_cons_self _ _, List.mem_singleton.mp h⟩
      · exact Or.inl h
    · exact Or.inr ⟨rn1, List.mem_cons_of_mem _ hrn1, he⟩

lemma depsBase_mem (recent : List ThoughtNode) (content : String) :
    ∀ d ∈ depsBase recent content, ∃ nd ∈ recent, d = nd.id := by
  intro d hd
  unfold depsBase at hd
  dsimp only at hd
  split at hd
  · cases hl : recent.getLast? with
    | none =>
      rw [hl] at hd
      simp at hd
    | some ln =>
      rw [hl] at hd
      exact ⟨ln, mem_of_getLastSome hl, List.mem_singleton.mp hd⟩
  · simp at hd

/-- `detect_dependencies` draws every id from the rolling window, and, as
long as the window is non-empty, never returns an empty list. -/
lemma detect_dependencies_spec (recent : List ThoughtNode) (content : String)
    (kws : List String) :
    (∀ d ∈ detect_dependencies recent content kws, ∃ nd ∈ recent, d = nd.id) ∧
    (recent ≠ [] → detect_dependencies recent content kws ≠ []) := by
  constructor
  · intro d hd
    unfold detect_dependencies at hd
    dsimp only at hd
    split at hd
    · cases hl : recent.getLast? with
      | none =>
        rw [hl] at hd
        simp at hd
      | some ln =>
        rw [hl] at hd
        exact ⟨ln, mem_of_getLastSome hl, List.mem_singleton.mp hd⟩
    · unfold depsShared at hd
      rcases depsFold_mem _ _ _ _ hd with h | ⟨rn, hrn, he⟩
      · exact depsBase_mem recent content d h
      · exact ⟨rn, List.drop_subset _ _ hrn, he⟩
  · intro hrec
    have hE : recent.isEmpty = false := by
      cases recent with
      | nil => exact absurd rfl hrec
      | cons a as => rfl
    unfold detect_dependencies
    dsimp only
    split
    · cases hl : recent.getLast? with
      | none =>
        rw [List.getLast?_eq_getLast recent hrec] at hl
        simp at hl
      | some ln => simp
    · rename_i h
      intro hnil
      apply h
      rw [hnil]
      simp [hE]

lemma tail_append_left {α : Type} {l : List α} (h : l ≠ []) (l2 : List α) :
    (l ++ l2).tail = l.tail ++ l2 := by
  cases l with
  | nil => exact absurd rfl h
  | cons a as => simp

/-- One `_create_node_from_segment` call preserves the parser invariant
and the dependency discipline, appending the produced node (if any). -/
lemma createNode_preserves (sid : String) (st : ParserState)
    (P : List ThoughtNode) (hInv : ParserInv sid st P) (hG : GoodDeps sid P)
    (seg : String) (ond : Option ThoughtNode) (st' : ParserState)
    (h : createNodeFromSegment st seg = (ond, st')) :
    ParserInv sid st' (P ++ ond.toList) ∧ GoodDeps sid (P ++ ond.toList) := by
  obtain ⟨hsid, hcnt, hrec, hids⟩ := hInv
  unfold createNodeFromSegment at h
  split at h
  · rw [Prod.mk.injEq] at h
    obtain ⟨h1, h2⟩ := h
    subst h2
    rw [← h1]
    simp only [Option.toList, List.append_nil]
    exact ⟨⟨hsid, hcnt, hrec, hids⟩, hG⟩
  · rw [Prod.mk.injEq] at h
    obtain ⟨h1, h2⟩ := h
    subst h2
    rw [← h1]
    simp only [Option.toList]
    constructor
    · refine ⟨hsid, ?_, ?_, ?_⟩
      · show st.node_counter + 1 = (P ++ [buildNode st seg]).length
        rw [hcnt]
        simp
      · show (if 5 < (st.recent_nodes ++ [buildNode st seg]).length
              then (st.recent_nodes ++ [buildNode st seg]).tail
              else st.recent_nodes ++ [buildNode st seg])
            = (P ++ [buildNode st seg]).drop ((P ++ [buildNode st seg]).length - 5)
        rw [hrec]
        by_cases h5 : 5 ≤ P.length
        · rw [if_pos (by simp [List.length_drop]; omega)]
          have hd : P.drop (P.length - 5) ≠ [] := by
            apply List.ne_nil_of_length_pos
            simp only [List.length_drop]
            omega
          rw [tail_append_left hd, List.tail_drop]
          rw [List.length_append]
          rw [List.drop_append_of_le_length (by simp only [List.length_singleton]; omega)]
          have he : P.length - 5 + 1 = P.length + List.length [buildNode st seg] - 5 := by
            simp only [List.length_singleton]
            omega
          rw [he]
        · have h0 : P.length - 5 = 0 := by omega
          rw [h0, List.drop_zero]
          rw [if_neg (by simp; omega)]
          have he : (P ++ [buildNode st seg]).length - 5 = 0 := by
            simp
            omega
          rw [he, List.drop_zero]
      · intro j hj
        have hj' : j < P.length + 1 := by simpa using hj
        rcases Nat.lt_succ_iff_lt_or_eq.mp hj' with hlt | heq
        · rw [List.get_append j hlt]
          exact hids j hlt
        · subst heq
          have hg : (P ++ [buildNode st seg]).get ⟨P.length, hj⟩ = buildNode st seg := by
            rw [List.get_eq_getElem]
            exact List.getElem_concat_length P _ P.length rfl _
          rw [hg]
          show mkNodeId st.session_id (st.node_counter + 1) = mkNodeId sid (P.length + 1)
          rw [hsid, hcnt]
    · intro k hk hk0
      have hk' : k < P.length + 1 := by simpa using hk
      rcases Nat.lt_succ_iff_lt_or_eq.mp hk' with hlt | heq
      · rw [List.get_append k hlt]
        exact hG k hlt hk0
      · subst heq
        have hg : (P ++ [buildNode st seg]).get ⟨P.length, hk⟩ = buildNode st seg := by
          rw [List.get_eq_getElem]
          exact List.getElem_concat_length P _ P.length rfl _
        rw [hg]
        have hPpos : 0 < P.length := hk0
        have hrne : st.recent_nodes ≠ [] := by
          rw [hrec]
          apply List.ne_nil_of_length_pos
          simp only [List.length_drop]
          omega
        obtain ⟨hmem, hne⟩ :=
          detect_dependencies_spec st.recent_nodes (pyStrip seg) (extract_keywords seg)
        constructor
        · exact hne hrne
        · intro d hd
          obtain ⟨nd, hndrec, hde⟩ := hmem d hd
          rw [hrec] at hndrec
          have hndP : nd ∈ P := List.drop_subset _ _ hndrec
          obtain ⟨n, hn⟩ := List.mem_iff_get.mp hndP
          refine ⟨n.1, n.2, ?_⟩
          rw [hde, ← hn]
          exact hids n.1 n.2

/-- The per-segment fold of `parse_incremental` preserves the invariant,
appending the nodes it emits. -/
lemma foldCreate_preserves (sid : String) (segs : List String) :
    ∀ (p : List ThoughtNode × ParserState) (P : List ThoughtNode),
      ParserInv sid p.2 (P ++ p.1) → GoodDeps sid (P ++ p.1) →
      ParserInv sid (segs.foldl (fun p seg =>
          match createNodeFromSegment p.2 seg with
          | (some nd, s') => (p.1 ++ [nd], s')
          | (none, s') => (p.1, s')) p).2
        (P ++ (segs.foldl (fun p seg =>
          match createNodeFromSegment p.2 seg with
          | (some nd, s') => (p.1 ++ [nd], s')
          | (none, s') => (p.1, s')) p).1) ∧
      GoodDeps sid (P ++ (segs.foldl (fun p seg =>
          match createNodeFromSegment p.2 seg with
          | (some nd, s') => (p.1 ++ [nd], s')
          | (none, s') => (p.1, s')) p).1) := by
  induction segs with
  | nil =>
    intro p P hInv hG
    exact ⟨hInv, hG⟩
  | cons seg segs ih =>
    intro p P hInv hG
    rw [List.foldl_cons]
    cases hc : createNodeFromSegment p.2 seg with
    | mk ond s2 =>
      have hstep := createNode_preserves sid p.2 (P ++ p.1) hInv hG seg ond s2 hc
      cases ond with
      | none =>
        dsimp only
        exact ih (p.1, s2) P (by simpa using hstep.1) (by simpa using hstep.2)
      | some nd =>
        dsimp only
        exact ih (p.1 ++ [nd], s2) P
          (by simpa [List.append_assoc] using hstep.1)
          (by simpa [List.append_assoc] using hstep.2)

/-- `parse_incremental` preserves the invariant. -/
lemma parse_preserves (sid : String) (st : ParserState) (P : List ThoughtNode)
    (chunk : String) (hInv : ParserInv sid st P) (hG : GoodDeps sid P) :
    ParserInv sid (parse_incremental st chunk).2
        (P ++ (parse_incremental st chunk).1) ∧
    GoodDeps sid (P ++ (parse_incremental st chunk).1) := by
  obtain ⟨hsid, hcnt, hrec, hids⟩ := hInv
  unfold parse_incremental
  dsimp only
  split
  · apply foldCreate_preserves
    · simpa using (⟨hsid, hcnt, hrec, hids⟩ : ParserInv sid st P)
    · simpa using hG
  · dsimp only
    simp only [List.append_nil]
    exact ⟨⟨hsid, hcnt, hrec, hids⟩, hG⟩

/-- `finalize` preserves the invariant. -/
lemma finalize_preserves (sid : String) (st : ParserState) (P : List ThoughtNode)
    (hInv : ParserInv sid st P) (hG : GoodDeps sid P) :
    ParserInv sid (finalizeParser st).2 (P ++ (finalizeParser st).1) ∧
    GoodDeps sid (P ++ (finalizeParser st).1) := by
  unfold finalizeParser
  split
  · cases hc : createNodeFromSegment st st.accumulated_text with
    | mk ond s2 =>
      have hstep := createNode_preserves sid st P hInv hG _ ond s2 hc
      cases ond with
      | none => exact ⟨by simpa using hstep.1, by simpa using hstep.2⟩
      | some nd => exact ⟨hstep.1, hstep.2⟩
  · exact ⟨by simpa using hInv, by simpa using hG⟩

/-- Any operation sequence preserves the invariant, appending its emitted
nodes in order. -/
lemma runOps_preserves (sid : String) (ops : List ParserOp) :
    ∀ (st : ParserState) (P : List ThoughtNode),
      ParserInv sid st P → GoodDeps sid P →
      ParserInv sid (runOps st ops).2 (P ++ (runOps st ops).1) ∧
      GoodDeps sid (P ++ (runOps st ops).1) := by
  induction ops with
  | nil =>
    intro st P hInv hG
    simp only [runOps, List.append_nil]
    exact ⟨hInv, hG⟩
  | cons op ops ih =>
    intro st P hInv hG
    cases op with
    | feed c =>
      have h1 := parse_preserves sid st P c hInv hG
      have h2 := ih (parse_incremental st c).2 (P ++ (parse_incremental st c).1)
        h1.1 h1.2
      unfold runOps
      dsimp only
      exact ⟨by simpa [List.append_assoc] using h2.1,
        by simpa [List.append_assoc] using h2.2⟩
    | fin =>
      have h1 := finalize_preserves sid st P hInv hG
      have h2 := ih (finalizeParser st).2 (P ++ (finalizeParser st).1) h1.1 h1.2
      unfold runOps
      dsimp only
      exact ⟨by simpa [List.append_assoc] using h2.1,
        by simpa [List.append_assoc] using h2.2⟩

/-- C5: in every run of the parser, every node after the first has a
non-empty dependency list, and every dependency is the id of a node
produced strictly earlier in the same session (its counter strictly
smaller). -/
theorem C5_theorem (sid : String) (ops : List ParserOp) (k : Nat)
    (hk : 0 < k) (hlt : k < (runOps (initParser sid) ops).1.length) :
    ((runOps (initParser sid) ops).1.get ⟨k, hlt⟩).dependencies ≠ [] ∧
    ∀ d ∈ ((runOps (initParser sid) ops).1.get ⟨k, hlt⟩).dependencies,
      ∃ j, j < k ∧ d = mkNodeId sid (j + 1) := by
  have hInit : ParserInv sid (initParser sid) [] := by
    refine ⟨rfl, rfl, rfl, ?_⟩
    intro j h
    simp at h
  have hG0 : GoodDeps sid [] := by
    intro k h
    simp at h
  have hrun := (runOps_preserves sid ops (initParser sid) [] hInit hG0).2
  simp only [List.nil_append] at hrun
  exact hrun k hlt hk

/-- C5 witness: feeding one short chunk and finalizing twice produces two
nodes; the second node's dependency list is exactly the first node's id. -/
theorem C5_witness :
    ∃ hlt : 1 < (runOps (initParser "s")
        [ParserOp.feed "abcdefghij there", ParserOp.fin, ParserOp.fin]).1.length,
      ((runOps (initParser "s")
        [ParserOp.feed "abcdefghij there", ParserOp.fin, ParserOp.fin]).1.get
          ⟨1, hlt⟩).dependencies ≠ [] ∧
      ∀ d ∈ ((runOps (initParser "s")
        [ParserOp.feed "abcdefghij there", ParserOp.fin, ParserOp.fin]).1.get
          ⟨1, hlt⟩).dependencies,
        ∃ j, j < 1 ∧ d = mkNodeId "s" (j + 1) := by
  have hlt : 1 < (runOps (initParser "s")
      [ParserOp.feed "abcdefghij there", ParserOp.fin, ParserOp.fin]).1.length := by
    decide
  exact ⟨hlt, C5_theorem "s"
    [ParserOp.feed "abcdefghij there", ParserOp.fin, ParserOp.fin] 1 (by decide) hlt⟩

/-! ## Claim C1 -/

/-- Concatenation of a fragment list (the full stream text). -/
def concatStrs (l : List String) : String := l.foldl (· ++ ·) ""

lemma concatStrs_snoc (l : List String) (s : String) :
    concatStrs (l ++ [s]) = concatStrs l ++ s := by
  unfold concatStrs
  rw [List.foldl_append]
  rfl

/-- When the whole buffer splits into at most one segment,
`parse_incremental` emits nothing and only grows the buffer. -/
lemma parse_no_emit (st : ParserState) (chunk : String)
    (h : (split_into_segments (st.accumulated_text ++ chunk)).length ≤ 1) :
    parse_incremental st chunk
      = ([], { st with accumulated_text := st.accumulated_text ++ chunk }) := by
  unfold parse_incremental
  dsimp only
  rw [if_neg (by omega)]

/-- Feeding buffered text plus a chunk is feeding their concatenation. -/
lemma parse_shift (st : ParserState) (c1 c2 : String) :
    parse_incremental { st with accumulated_text := st.accumulated_text ++ c1 } c2
      = parse_incremental st (c1 ++ c2) := by
  unfold parse_incremental
  dsimp only
  rw [String.append_assoc]

lemma runOps_append (st : ParserState) (ops1 ops2 : List ParserOp) :
    runOps st (ops1 ++ ops2)
      = ((runOps st ops1).1 ++ (runOps (runOps st ops1).2 ops2).1,
         (runOps (runOps st ops1).2 ops2).2) := by
  induction ops1 generalizing st with
  | nil => simp [runOps]
  | cons op ops1 ih =>
    rw [List.cons_append]
    simp only [runOps]
    rw [ih]
    simp [List.append_assoc]

/-- As long as every fed prefix still splits into at most one segment, the
parser emits nothing and its state is the initial state with the prefix
concatenation buffered. -/
lemma no_emit_run (sid : String) (fs : List String)
    (h : ∀ k, 0 < k → k ≤ fs.length →
      (split_into_segments (concatStrs (fs.take k))).length ≤ 1) :
    runOps (initParser sid) (fs.map ParserOp.feed)
      = ([], { initParser sid with accumulated_text := concatStrs fs }) := by
  induction fs using List.reverseRecOn with
  | nil => rfl
  | append_singleton fs f ih =>
    have hpre : ∀ k, 0 < k → k ≤ fs.length →
        (split_into_segments (concatStrs (fs.take k))).length ≤ 1 := by
      intro k hk0 hkle
      have ht : (fs ++ [f]).take k = fs.take k := by
        rw [List.take_append_eq_append_take]
        simp [Nat.sub_eq_zero_of_le hkle]
      have hk := h k hk0 (by simp; omega)
      rw [ht] at hk
      exact hk
    have hlast := h (fs.length + 1) (by omega) (by simp)
    have hfull : (fs ++ [f]).take (fs.length + 1) = fs ++ [f] := by
      rw [show fs.length + 1 = (fs ++ [f]).length by simp]
      exact List.take_length _
    rw [hfull, concatStrs_snoc] at hlast
    have hpe : parse_incremental
          { initParser sid with accumulated_text := concatStrs fs } f
        = ([], { initParser sid with accumulated_text := concatStrs fs ++ f }) :=
      parse_no_emit { initParser sid with accumulated_text := concatStrs fs } f hlast
    rw [List.map_append, runOps_append, ih hpre]
    simp only [runOps, hpe]
    simp [concatStrs_snoc]

/-- C1 (amended): the incremental/one-shot round-trip holds when no proper
prefix of the fragment feed ever splits into more than one segment (so no
node is emitted before the final fragment); in general the two feeds can
differ, because re-buffering keeps only the split's last segment. -/
theorem C1_theorem (sid : String) (fragments : List String)
    (h : ∀ k, k < fragments.length → 0 < k →
      (split_into_segments (concatStrs (fragments.take k))).length ≤ 1) :
    emittedContents sid fragments = emittedContents sid [concatStrs fragments] := by
  rcases List.eq_nil_or_concat' fragments with hnil | ⟨fs, f, rfl⟩
  · subst hnil
    rfl
  · have hpre : ∀ k, 0 < k → k ≤ fs.length →
        (split_into_segments (concatStrs (fs.take k))).length ≤ 1 := by
      intro k hk0 hkle
      have ht : (fs ++ [f]).take k = fs.take k := by
        rw [List.take_append_eq_append_take]
        simp [Nat.sub_eq_zero_of_le hkle]
      have hk := h k (by simp; omega) hk0
      rwa [ht] at hk
    unfold emittedContents
    rw [List.map_append, List.append_assoc, runOps_append, no_emit_run sid fs hpre]
    have hps : parse_incremental
          { initParser sid with accumulated_text := concatStrs fs } f
        = parse_incremental (initParser sid) (concatStrs fs ++ f) :=
      parse_shift (initParser sid) (concatStrs fs) f
    simp only [List.map_cons, List.map_nil, List.nil_append, List.cons_append,
      runOps, hps, concatStrs_snoc]

/-- First fragment: two complete segments plus a three-word tail. -/
def c1a : String :=
  "w w w w w w w w w w w w w w w w w w w w. x x x x x x x x x x x x x x x x x x x x. t t t"

/-- Second fragment: the rest of the tail words. -/
def c1b : String := " t t t t t t t"

set_option maxRecDepth 8000 in
/-- C1 counterexample: fed as two fragments, the parser emits one complete
segment and re-buffers only the last split segment, silently dropping the
sub-threshold trailing words `"t t t"`; fed in one call it emits both
complete segments and finalizes the full ten-word tail. The final emitted
segment contents differ (even as sets). -/
theorem C1_counterexample :
    emittedContents "s" [c1a, c1b] ≠ emittedContents "s" [c1a ++ c1b] ∧
    "t t t t t t t t t t" ∈ emittedContents "s" [c1a ++ c1b] ∧
    "t t t t t t t t t t" ∉ emittedContents "s" [c1a, c1b] := by
  decide

set_option maxRecDepth 8000 in
/-- C1 witness: two fragments whose first never completes a segment feed
round-trip equal to the one-shot feed. -/
theorem C1_witness :
    (∀ k, k < ([("abc def. " : String), "ghi jkl"] : List String).length → 0 < k →
      (split_into_segments
        (concatStrs (([("abc def. " : String), "ghi jkl"] : List String).take k))).length ≤ 1) ∧
    emittedContents "s" [("abc def. " : String), "ghi jkl"]
      = emittedContents "s" [concatStrs [("abc def. " : String), "ghi jkl"]] :=
  ⟨by decide, C1_theorem "s" [("abc def. " : String), "ghi jkl"] (by decide)⟩

end Stepper

